import Mathlib

/-!
# Verification of the floor-plan generator service (`app.py`)

A shallow embedding of the request-handling and persistence pipeline of the
Flask application in `app.py`: the upload validation (`allowed_file`), image
dimension processing (`process_image_dimensions`), the `/analyze`,
`/generate_plan`, `/history`, `/download/<filename>`, `/test_api` and
`/health` handlers, the JSON record serialization performed by `json.dump`
(with `indent=2`) and the re-parsing performed by `json.load` in the history
listing.

Conventions of the embedding:
* File contents are Lean `String`s; the two directories `uploads/` and
  `outputs/` are association lists from filename to content, newest entry
  first (a later write to the same name shadows the older entry, modelling
  `open(path, 'w')` overwriting).
* The external model gateway (`google.generativeai`), the image decoder
  (`PIL.Image.open`) and disk writes are non-deterministic, fallible
  collaborators; one request sees one fixed outcome for each, supplied in an
  `Env`.  `Except.error e` models the Python call raising an exception whose
  `str` is `e`; `Except.ok` models normal return.
* Python floats are modelled as exact rationals; `round(x, 2)` is modelled
  as round-half-to-even on the rational value (Python's rounding mode).
* A handler returns its `Response` (body and HTTP status), the filesystem
  after the request, and a `Trace` of external-model calls and file reads.
-/

namespace FloorPlan

/-! ## JSON values

The subset of JSON produced and consumed by `app.py`: objects with
string keys, strings, booleans, integers and non-negative decimal literals
(Python floats such as `aspect_ratio`, printed as `ip.frac` with an explicit
count `fd` of fractional digits). -/

inductive JVal where
  | jbool (b : Bool)
  | jint (n : Int)
  | jdec (ip : Nat) (frac : Nat) (fd : Nat)
  | jstr (s : String)
  | jobj (fields : List (String × JVal))

/-- Characters counted as whitespace by the JSON parser. -/
def isWs (c : Char) : Bool :=
  c = ' ' || c = '\n' || c = '\t' || c = '\r'

/-- Decimal digit character for `d < 10`. -/
def digitChar (d : Nat) : Char :=
  match d with
  | 0 => '0' | 1 => '1' | 2 => '2' | 3 => '3' | 4 => '4'
  | 5 => '5' | 6 => '6' | 7 => '7' | 8 => '8' | _ => '9'

/-- Numeric value of a decimal digit character. -/
def charDigit (c : Char) : Nat := c.toNat - 48

/-- Decimal digit characters of `n`, most significant first (`"0"` for 0),
as printed by Python's `repr`/`json.dump` for non-negative integers. -/
def natChars (n : Nat) : List Char :=
  if n = 0 then ['0'] else ((Nat.digits 10 n).map digitChar).reverse

/-- Decimal rendering of an integer, as printed by `json.dump`. -/
def intChars (n : Int) : List Char :=
  if n < 0 then '-' :: natChars n.natAbs else natChars n.toNat

/-- `n` spaces, the indentation emitted by `json.dump(..., indent=2)`. -/
def spacesL (n : Nat) : List Char := List.replicate n ' '

/-- Fractional digits of a decimal literal: the digits of `f`, left-padded
with zeros to exactly `fd` digits. -/
def fracChars (fd f : Nat) : List Char := List.leftpad fd '0' (natChars f)

/-- Hexadecimal digit character (lowercase, as emitted by Python's `json`). -/
def hexDigitChar (n : Nat) : Char :=
  match n with
  | 0 => '0' | 1 => '1' | 2 => '2' | 3 => '3' | 4 => '4' | 5 => '5'
  | 6 => '6' | 7 => '7' | 8 => '8' | 9 => '9' | 10 => 'a' | 11 => 'b'
  | 12 => 'c' | 13 => 'd' | 14 => 'e' | _ => 'f'

/-- Four-hex-digit rendering of `n < 0x10000`, used in `\u` escapes. -/
def hex4 (n : Nat) : List Char :=
  [hexDigitChar (n / 4096 % 16), hexDigitChar (n / 256 % 16),
   hexDigitChar (n / 16 % 16), hexDigitChar (n % 16)]

/-- JSON escaping of one character, following Python `json`'s encoder:
`"` and `\` are backslash-escaped, newline/tab/carriage-return get their
short escapes, remaining control characters get `\uXXXX`, and everything
else is emitted literally. -/
def escChar (c : Char) : List Char :=
  if c = '"' then ['\\', '"']
  else if c = '\\' then ['\\', '\\']
  else if c = '\n' then ['\\', 'n']
  else if c = '\t' then ['\\', 't']
  else if c = '\r' then ['\\', 'r']
  else if c.toNat < 32 then '\\' :: 'u' :: hex4 c.toNat
  else [c]

/-- JSON escaping of a character sequence. -/
def escList (l : List Char) : List Char := l.flatMap escChar

/-- A JSON string literal (opening and closing quote included). -/
def strLit (s : String) : List Char := '"' :: (escList s.data ++ ['"'])

mutual

/-- Serialization of a JSON value, as `json.dump(v, f, indent=2)` renders it
when the enclosing indentation is `ind` spaces. -/
def jdumpV (ind : Nat) : JVal → List Char
  | .jbool true => ['t', 'r', 'u', 'e']
  | .jbool false => ['f', 'a', 'l', 's', 'e']
  | .jint n => intChars n
  | .jdec ip f fd => natChars ip ++ '.' :: fracChars fd f
  | .jstr s => strLit s
  | .jobj [] => ['\x7b', '\x7d']
  | .jobj (m :: ms) =>
      '\x7b' :: '\n' :: (jdumpFields (ind + 2) m ms ++ '\n' :: (spacesL ind ++ ['\x7d']))
termination_by v => sizeOf v
decreasing_by all_goals simp_arith

/-- Serialization of a non-empty member list at indentation `ind`:
members are separated by `",\n"`, each preceded by its indentation,
keys and values separated by `": "`. -/
def jdumpFields (ind : Nat) : (String × JVal) → List (String × JVal) → List Char
  | (k, v), [] => spacesL ind ++ (strLit k ++ ':' :: ' ' :: jdumpV ind v)
  | (k, v), m' :: ms =>
      (spacesL ind ++ (strLit k ++ ':' :: ' ' :: jdumpV ind v)) ++
        ',' :: '\n' :: jdumpFields ind m' ms
termination_by m ms => sizeOf m + sizeOf ms
decreasing_by all_goals simp_arith

end

/-- The bytes `json.dump(v, f, indent=2)` writes for a whole document. -/
def jdump (v : JVal) : String := ⟨jdumpV 0 v⟩

/-! ## JSON parsing

A recursive-descent parser modelling `json.load` on the JSON subset above.
Recursion is bounded by a fuel parameter; `jload` supplies fuel larger than
the size of any document that fits in the input. -/

/-- Skip JSON whitespace. -/
def skipWs : List Char → List Char
  | c :: cs => if isWs c then skipWs cs else c :: cs
  | [] => []

/-- Numeric value of a hexadecimal digit character, if it is one. -/
def hexVal (c : Char) : Option Nat :=
  if c = '0' then some 0 else if c = '1' then some 1
  else if c = '2' then some 2 else if c = '3' then some 3
  else if c = '4' then some 4 else if c = '5' then some 5
  else if c = '6' then some 6 else if c = '7' then some 7
  else if c = '8' then some 8 else if c = '9' then some 9
  else if c = 'a' || c = 'A' then some 10 else if c = 'b' || c = 'B' then some 11
  else if c = 'c' || c = 'C' then some 12 else if c = 'd' || c = 'D' then some 13
  else if c = 'e' || c = 'E' then some 14 else if c = 'f' || c = 'F' then some 15
  else none

/-- Parse the body of a JSON string literal (after the opening quote),
returning the decoded characters and the input after the closing quote. -/
def parseStrBody : List Char → Option (List Char × List Char)
  | [] => none
  | c :: cs =>
    if c = '"' then some ([], cs)
    else if c = '\\' then
      match cs with
      | [] => none
      | e :: cs1 =>
        if e = '"' then (parseStrBody cs1).map (fun p => ('"' :: p.1, p.2))
        else if e = '\\' then (parseStrBody cs1).map (fun p => ('\\' :: p.1, p.2))
        else if e = '/' then (parseStrBody cs1).map (fun p => ('/' :: p.1, p.2))
        else if e = 'n' then (parseStrBody cs1).map (fun p => ('\n' :: p.1, p.2))
        else if e = 't' then (parseStrBody cs1).map (fun p => ('\t' :: p.1, p.2))
        else if e = 'r' then (parseStrBody cs1).map (fun p => ('\r' :: p.1, p.2))
        else if e = 'b' then (parseStrBody cs1).map (fun p => ('\x08' :: p.1, p.2))
        else if e = 'f' then (parseStrBody cs1).map (fun p => ('\x0c' :: p.1, p.2))
        else if e = 'u' then
          match cs1 with
          | h1 :: h2 :: h3 :: h4 :: cs2 =>
            match hexVal h1, hexVal h2, hexVal h3, hexVal h4 with
            | some a, some b, some c2, some d =>
              let n := a * 4096 + b * 256 + c2 * 16 + d
              if n < 55296 then
                (parseStrBody cs2).map (fun p => (Char.ofNat n :: p.1, p.2))
              else none
            | _, _, _, _ => none
          | _ => none
        else none
    else (parseStrBody cs).map (fun p => (c :: p.1, p.2))

/-- Consume a run of decimal digits, most significant first, extending the
accumulator `acc`. -/
def readNatAux (acc : Nat) : List Char → Nat × List Char
  | [] => (acc, [])
  | c :: cs =>
    if c.isDigit then readNatAux (acc * 10 + charDigit c) cs else (acc, c :: cs)

/-- Parse an unsigned JSON number starting at a digit: an integer, or a
decimal literal with at least one fractional digit (whose count is kept). -/
def parseUNum : List Char → Option (JVal × List Char)
  | [] => none
  | c :: cs =>
    if c.isDigit then
      match readNatAux 0 (c :: cs) with
      | (ip, r1) =>
        match r1 with
        | [] => some (.jint (ip : Int), [])
        | d :: r2 =>
          if d = '.' then
            match r2 with
            | [] => none
            | e :: r3 =>
              if e.isDigit then
                match readNatAux 0 (e :: r3) with
                | (f, r4) => some (.jdec ip f ((e :: r3).length - r4.length), r4)
              else none
          else some (.jint (ip : Int), d :: r2)
    else none

/-- Parse a signed JSON number (negative decimals are outside the modelled
subset and rejected). -/
def parseNum : List Char → Option (JVal × List Char)
  | [] => none
  | c :: cs =>
    if c = '-' then
      match parseUNum cs with
      | some (.jint n, r) => some (.jint (-n), r)
      | _ => none
    else parseUNum (c :: cs)

mutual

/-- Parse one JSON value of the modelled subset, with `fuel` bounding the
recursion depth. -/
def parseVal : Nat → List Char → Option (JVal × List Char)
  | 0, _ => none
  | fuel + 1, cs =>
    match skipWs cs with
    | [] => none
    | c :: cs1 =>
      if c = '"' then (parseStrBody cs1).map (fun p => (.jstr ⟨p.1⟩, p.2))
      else if c = 't' then
        match cs1 with
        | 'r' :: 'u' :: 'e' :: r => some (.jbool true, r)
        | _ => none
      else if c = 'f' then
        match cs1 with
        | 'a' :: 'l' :: 's' :: 'e' :: r => some (.jbool false, r)
        | _ => none
      else if c = '\x7b' then
        match skipWs cs1 with
        | '\x7d' :: r => some (.jobj [], r)
        | _ => (parseMembers fuel cs1).map (fun p => (.jobj p.1, p.2))
      else parseNum (c :: cs1)

/-- Parse a non-empty `"key": value` member list and the closing brace. -/
def parseMembers : Nat → List Char → Option (List (String × JVal) × List Char)
  | 0, _ => none
  | fuel + 1, cs =>
    match skipWs cs with
    | '"' :: cs1 =>
      match parseStrBody cs1 with
      | none => none
      | some (k, cs2) =>
        match skipWs cs2 with
        | ':' :: cs3 =>
          match parseVal fuel cs3 with
          | none => none
          | some (v, cs4) =>
            match skipWs cs4 with
            | ',' :: cs5 =>
              (parseMembers fuel cs5).map (fun p => ((⟨k⟩, v) :: p.1, p.2))
            | '\x7d' :: r => some ([(⟨k⟩, v)], r)
            | _ => none
        | _ => none
    | _ => none

end

/-- The value `json.load` recovers from a document, if it parses within the
modelled subset: one value, then only trailing whitespace. -/
def jloadList (cs : List Char) : Option JVal :=
  match parseVal (cs.length + 1) cs with
  | some (v, r) => if skipWs r = [] then some v else none
  | none => none

/-- `json.load` on a whole file. -/
def jload (s : String) : Option JVal := jloadList s.data

/-! ## Lemmas: decimal digit rendering -/

theorem charDigit_digitChar {d : Nat} (h : d < 10) : charDigit (digitChar d) = d := by
  interval_cases d <;> rfl

theorem digitChar_isDigit {d : Nat} (h : d < 10) : (digitChar d).isDigit = true := by
  interval_cases d <;> rfl

/-- The digit characters of a positive `n` peel off the least significant digit. -/
theorem natChars_pos_eq {n : Nat} (hn : 0 < n) :
    ((Nat.digits 10 n).map digitChar).reverse =
      ((Nat.digits 10 (n / 10)).map digitChar).reverse ++ [digitChar (n % 10)] := by
  rw [Nat.digits_def' (by norm_num : (1 : Nat) < 10) hn]
  simp

/-- Value accumulated by reading decimal digit characters left to right. -/
def valAux (acc : Nat) (l : List Char) : Nat :=
  l.foldl (fun a c => a * 10 + charDigit c) acc

theorem valAux_append (acc : Nat) (l1 l2 : List Char) :
    valAux acc (l1 ++ l2) = valAux (valAux acc l1) l2 :=
  List.foldl_append ..

theorem valAux_core (n : Nat) :
    ∀ acc, valAux acc (((Nat.digits 10 n).map digitChar).reverse) =
      acc * 10 ^ ((Nat.digits 10 n).map digitChar).length + n := by
  induction n using Nat.strong_induction_on with
  | _ n ih =>
    intro acc
    rcases Nat.eq_zero_or_pos n with h0 | hpos
    · subst h0; simp [valAux]
    · rw [natChars_pos_eq hpos, valAux_append]
      rw [ih (n / 10) (Nat.div_lt_self hpos (by norm_num))]
      have hlen : ((Nat.digits 10 n).map digitChar).length =
          ((Nat.digits 10 (n / 10)).map digitChar).length + 1 := by
        rw [Nat.digits_def' (by norm_num : (1 : Nat) < 10) hpos]; simp
      rw [hlen]
      simp [valAux, charDigit_digitChar (Nat.mod_lt n (by norm_num))]
      have := Nat.div_add_mod n 10
      ring_nf
      omega

theorem valAux_natChars (n : Nat) : valAux 0 (natChars n) = n := by
  unfold natChars
  split
  · subst ‹n = 0›; rfl
  · simpa using valAux_core n 0

theorem valAux_zeros (k : Nat) : valAux 0 (List.replicate k '0') = 0 := by
  induction k with
  | zero => rfl
  | succ k ih => simpa [List.replicate_succ, valAux, charDigit] using ih

theorem natChars_all_digits {n : Nat} : ∀ c ∈ natChars n, c.isDigit = true := by
  intro c hc
  unfold natChars at hc
  split at hc
  · simp at hc; subst hc; rfl
  · simp only [List.mem_reverse, List.mem_map] at hc
    obtain ⟨d, hd, rfl⟩ := hc
    exact digitChar_isDigit (Nat.digits_lt_base (by norm_num) hd)

theorem natChars_ne_nil (n : Nat) : natChars n ≠ [] := by
  unfold natChars
  split
  · simp
  · simp [Nat.digits_ne_nil_iff_ne_zero.mpr ‹¬ n = 0›]

theorem exists_natChars_cons (n : Nat) :
    ∃ d l, natChars n = d :: l ∧ d.isDigit = true := by
  cases hc : natChars n with
  | nil => exact absurd hc (natChars_ne_nil n)
  | cons d l =>
    exact ⟨d, l, rfl, natChars_all_digits d (hc ▸ List.mem_cons_self d l)⟩

theorem natChars_length_le {f fd : Nat} (hf : f < 10 ^ fd) (hfd : 1 ≤ fd) :
    (natChars f).length ≤ fd := by
  unfold natChars
  split
  · simpa using hfd
  · simp only [List.length_reverse, List.length_map]
    by_contra hlen
    have h1 : fd + 1 ≤ (Nat.digits 10 f).length := by omega
    have h2 : (10 : Nat) ^ (fd + 1) ≤ 10 ^ (Nat.digits 10 f).length :=
      Nat.pow_le_pow_right (by norm_num) h1
    have h3 : (10 : Nat) ^ (Nat.digits 10 f).length ≤ 10 * f :=
      Nat.base_pow_length_digits_le 10 f (by norm_num) ‹¬ f = 0›
    have h4 : (10 : Nat) ^ (fd + 1) = 10 * 10 ^ fd := by ring
    omega

/-- A digit character differs from any non-digit character. -/
theorem digit_ne {c : Char} (h : c.isDigit = true) :
    ∀ x : Char, x.isDigit = false → c ≠ x := by
  intro x hx heq
  subst heq; rw [h] at hx; cases hx

theorem isWs_of_digit {c : Char} (h : c.isDigit = true) : isWs c = false := by
  have h1 := digit_ne h ' ' (by decide)
  have h2 := digit_ne h '\n' (by decide)
  have h3 := digit_ne h '\t' (by decide)
  have h4 := digit_ne h '\r' (by decide)
  simp [isWs, h1, h2, h3, h4]

/-! ## Lemmas: whitespace skipping -/

theorem skipWs_cons_ws {c : Char} (h : isWs c = true) (l : List Char) :
    skipWs (c :: l) = skipWs l := by
  simp [skipWs, h]

theorem skipWs_cons {c : Char} (h : isWs c = false) (l : List Char) :
    skipWs (c :: l) = c :: l := by
  simp [skipWs, h]

theorem skipWs_spaces (n : Nat) (l : List Char) :
    skipWs (spacesL n ++ l) = skipWs l := by
  induction n with
  | zero => rfl
  | succ k ih =>
    rw [spacesL, List.replicate_succ, List.cons_append, skipWs_cons_ws (by decide)]
    exact ih

theorem skipWs_nil : skipWs [] = [] := rfl

/-! ## Lemmas: string escaping round trip -/

theorem hexVal_hexDigitChar {d : Nat} (h : d < 16) :
    hexVal (hexDigitChar d) = some d := by
  interval_cases d <;> rfl

/-- Parsing a `\uXXXX` escape built from four hex digit characters. -/
theorem parseStrBody_u (a b c d : Nat) (ha : a < 16) (hb : b < 16)
    (hc : c < 16) (hd : d < 16) (h : a * 4096 + b * 256 + c * 16 + d < 55296)
    (rest : List Char) :
    parseStrBody ('\\' :: 'u' :: hexDigitChar a :: hexDigitChar b ::
        hexDigitChar c :: hexDigitChar d :: rest) =
      (parseStrBody rest).map
        (fun p => (Char.ofNat (a * 4096 + b * 256 + c * 16 + d) :: p.1, p.2)) := by
  have e1 := hexVal_hexDigitChar ha
  have e2 := hexVal_hexDigitChar hb
  have e3 := hexVal_hexDigitChar hc
  have e4 := hexVal_hexDigitChar hd
  simp +decide only [parseStrBody, e1, e2, e3, e4]
  simp [h]

/-- Parsing after one escaped character peels off exactly that character. -/
theorem parseStrBody_escChar (c : Char) (rest : List Char) :
    parseStrBody (escChar c ++ rest) =
      (parseStrBody rest).map (fun p => (c :: p.1, p.2)) := by
  by_cases h1 : c = '"'
  · subst h1
    rw [show escChar '"' = ['\\', '"'] from rfl, List.cons_append, List.cons_append,
      List.nil_append, parseStrBody.eq_def]
    rfl
  by_cases h2 : c = '\\'
  · subst h2
    rw [show escChar '\\' = ['\\', '\\'] from rfl, List.cons_append, List.cons_append,
      List.nil_append, parseStrBody.eq_def]
    rfl
  by_cases h3 : c = '\n'
  · subst h3
    rw [show escChar '\n' = ['\\', 'n'] from rfl, List.cons_append, List.cons_append,
      List.nil_append, parseStrBody.eq_def]
    rfl
  by_cases h4 : c = '\t'
  · subst h4
    rw [show escChar '\t' = ['\\', 't'] from rfl, List.cons_append, List.cons_append,
      List.nil_append, parseStrBody.eq_def]
    rfl
  by_cases h5 : c = '\r'
  · subst h5
    rw [show escChar '\r' = ['\\', 'r'] from rfl, List.cons_append, List.cons_append,
      List.nil_append, parseStrBody.eq_def]
    rfl
  by_cases h6 : c.toNat < 32
  · have hesc : escChar c = '\\' :: 'u' :: hex4 c.toNat := by
      simp [escChar, h1, h2, h3, h4, h5, h6]
    rw [hesc]
    have t0 : c.toNat / 4096 % 16 < 16 := Nat.mod_lt _ (by norm_num)
    have t1 : c.toNat / 256 % 16 < 16 := Nat.mod_lt _ (by norm_num)
    have t2 : c.toNat / 16 % 16 < 16 := Nat.mod_lt _ (by norm_num)
    have t3 : c.toNat % 16 < 16 := Nat.mod_lt _ (by norm_num)
    have hn : c.toNat / 4096 % 16 * 4096 + c.toNat / 256 % 16 * 256 +
        c.toNat / 16 % 16 * 16 + c.toNat % 16 = c.toNat := by omega
    have hlt : c.toNat / 4096 % 16 * 4096 + c.toNat / 256 % 16 * 256 +
        c.toNat / 16 % 16 * 16 + c.toNat % 16 < 55296 := by omega
    rw [show ('\\' :: 'u' :: hex4 c.toNat) ++ rest =
        '\\' :: 'u' :: hexDigitChar (c.toNat / 4096 % 16) ::
          hexDigitChar (c.toNat / 256 % 16) :: hexDigitChar (c.toNat / 16 % 16) ::
          hexDigitChar (c.toNat % 16) :: rest by simp [hex4]]
    rw [parseStrBody_u _ _ _ _ t0 t1 t2 t3 hlt rest, hn, Char.ofNat_toNat]
  · have hesc : escChar c = [c] := by
      simp [escChar, h1, h2, h3, h4, h5, h6]
    rw [hesc, show [c] ++ rest = c :: rest from rfl, parseStrBody.eq_def]
    simp only [h1, h2, if_false, ite_false]

/-- Round trip for escaped character sequences followed by the closing quote. -/
theorem parseStrBody_escList (l : List Char) (r : List Char) :
    parseStrBody (escList l ++ '"' :: r) = some (l, r) := by
  induction l with
  | nil =>
    rw [show escList [] ++ '"' :: r = '"' :: r from rfl, parseStrBody.eq_def]
    rfl
  | cons c l ih =>
    have h1 : escList (c :: l) ++ '"' :: r = escChar c ++ (escList l ++ '"' :: r) := by
      rw [escList, escList, List.flatMap_cons, List.append_assoc]
    rw [h1, parseStrBody_escChar c, ih]
    rfl

/-! ## Lemmas: number parsing round trip -/

/-- The continuation after a serialized number must not begin with a digit
or a decimal point (in dumped documents it is `,`, `\n`, or empty). -/
def headOkNum : List Char → Prop
  | [] => True
  | c :: _ => c.isDigit = false ∧ c ≠ '.'

theorem readNatAux_append (l r : List Char) (hl : ∀ c ∈ l, c.isDigit = true)
    (hr : ∀ c, r.head? = some c → c.isDigit = false) :
    ∀ acc, readNatAux acc (l ++ r) = (valAux acc l, r) := by
  induction l with
  | nil =>
    intro acc
    cases r with
    | nil => rfl
    | cons c cs => simp [readNatAux, hr c rfl, valAux]
  | cons c l ih =>
    intro acc
    have hc := hl c (by simp)
    rw [List.cons_append, readNatAux, if_pos hc]
    rw [ih (fun x hx => hl x (by simp [hx]))]
    simp [valAux]

theorem parseUNum_natChars (n : Nat) (r : List Char) (hr : headOkNum r) :
    parseUNum (natChars n ++ r) = some (.jint (n : Int), r) := by
  obtain ⟨d, l, hdl, hd⟩ := exists_natChars_cons n
  have hread : readNatAux 0 (natChars n ++ r) = (n, r) := by
    rw [readNatAux_append (natChars n) r natChars_all_digits
      (fun c hc => by
        cases r with
        | nil => simp at hc
        | cons c0 cs => simp at hc; subst hc; exact hr.1), valAux_natChars]
  cases r with
  | nil =>
    have hread' : readNatAux 0 (d :: l) = (n, []) := by
      have := hread
      rw [List.append_nil, hdl] at this
      exact this
    simp [hdl, parseUNum, hd, hread']
  | cons c0 cs =>
    have hread' : readNatAux 0 (d :: (l ++ c0 :: cs)) = (n, c0 :: cs) := by
      have := hread
      rw [hdl, List.cons_append] at this
      exact this
    have hc0 : ¬ c0 = '.' := hr.2
    simp [hdl, List.cons_append, parseUNum, hd, hread', hc0]

theorem parseNum_intChars (n : Int) (r : List Char) (hr : headOkNum r) :
    parseNum (intChars n ++ r) = some (.jint n, r) := by
  unfold intChars
  split
  · rename_i hneg
    have hcast : (-((n.natAbs : Nat) : Int)) = n := by omega
    rw [List.cons_append, parseNum, if_pos rfl, parseUNum_natChars _ r hr]
    show some (JVal.jint (-((n.natAbs : Nat) : Int)), r) = some (JVal.jint n, r)
    rw [hcast]
  · rename_i hpos
    obtain ⟨d, l, hdl, hd⟩ := exists_natChars_cons n.toNat
    rw [hdl, List.cons_append, parseNum,
      if_neg (digit_ne hd '-' (by decide)), ← List.cons_append, ← hdl,
      parseUNum_natChars _ r hr]
    simp only [Option.some.injEq, Prod.mk.injEq, and_true, JVal.jint.injEq]
    omega

theorem fracChars_all_digits {fd f : Nat} :
    ∀ c ∈ fracChars fd f, c.isDigit = true := by
  intro c hc
  simp only [fracChars, List.leftpad, List.mem_append, List.mem_replicate] at hc
  rcases hc with ⟨_, rfl⟩ | hc
  · rfl
  · exact natChars_all_digits c hc

theorem fracChars_length {fd f : Nat} (hf : f < 10 ^ fd) (hfd : 1 ≤ fd) :
    (fracChars fd f).length = fd := by
  simp only [fracChars, List.leftpad_length]
  exact Nat.max_eq_left (natChars_length_le hf hfd)

theorem valAux_fracChars (fd f : Nat) : valAux 0 (fracChars fd f) = f := by
  simp only [fracChars, List.leftpad]
  rw [valAux_append]
  rw [valAux_zeros, valAux_natChars]

theorem fracChars_ne_nil {fd f : Nat} (hfd : 1 ≤ fd) : fracChars fd f ≠ [] := by
  intro h
  have := congrArg List.length h
  simp only [fracChars, List.leftpad_length, List.length_nil] at this
  omega

theorem parseNum_dec (ip f fd : Nat) (hf : f < 10 ^ fd) (hfd : 1 ≤ fd)
    (r : List Char) (hr : headOkNum r) :
    parseNum ((natChars ip ++ '.' :: fracChars fd f) ++ r) =
      some (.jdec ip f fd, r) := by
  obtain ⟨d, l, hdl, hd⟩ := exists_natChars_cons ip
  have hread : readNatAux 0 (natChars ip ++ ('.' :: (fracChars fd f ++ r))) =
      (ip, '.' :: (fracChars fd f ++ r)) := by
    rw [readNatAux_append (natChars ip) _ natChars_all_digits
      (fun c hc => by simp at hc; subst hc; decide), valAux_natChars]
  obtain ⟨e, l2, hel, he⟩ : ∃ e l2, fracChars fd f = e :: l2 ∧ e.isDigit = true := by
    cases hfc : fracChars fd f with
    | nil => exact absurd hfc (fracChars_ne_nil hfd)
    | cons e l2 =>
      exact ⟨e, l2, rfl, fracChars_all_digits e (hfc ▸ List.mem_cons_self e l2)⟩
  have hread2 : readNatAux 0 (fracChars fd f ++ r) = (f, r) := by
    rw [readNatAux_append (fracChars fd f) r fracChars_all_digits
      (fun c hc => by
        cases r with
        | nil => simp at hc
        | cons c0 cs => simp at hc; subst hc; exact hr.1), valAux_fracChars]
  have hread1 : readNatAux 0 (d :: (l ++ '.' :: e :: (l2 ++ r))) =
      (ip, '.' :: e :: (l2 ++ r)) := by
    have := hread
    rw [hel, List.cons_append, hdl, List.cons_append] at this
    exact this
  have hread2' : readNatAux 0 (e :: (l2 ++ r)) = (f, r) := by
    have := hread2
    rw [hel, List.cons_append] at this
    exact this
  have hdn : ¬ d = '-' := digit_ne hd '-' (by decide)
  have hlen2 : l2.length + 1 = fd := by
    have := fracChars_length hf hfd
    rw [hel] at this
    simpa using this
  simp [hdl, hel, List.cons_append, List.append_assoc, parseNum, parseUNum,
    hd, he, hdn, hread1, hread2']
  omega

/-! ## Size and well-formedness of JSON values -/

mutual

/-- Number of nodes of a JSON value; bounds the parser fuel needed. -/
def sizeJ : JVal → Nat
  | .jobj ms => 1 + sizeFs ms
  | _ => 1
termination_by v => sizeOf v

/-- Combined size of an object member list. -/
def sizeFs : List (String × JVal) → Nat
  | [] => 0
  | (_, v) :: ms => 1 + sizeJ v + sizeFs ms
termination_by ms => sizeOf ms

end

mutual

/-- Well-formed JSON values: every decimal literal satisfies
`frac < 10 ^ fd` and `1 ≤ fd` (true of everything the app serializes). -/
def wfJ : JVal → Bool
  | .jdec _ f fd => decide (f < 10 ^ fd) && decide (1 ≤ fd)
  | .jobj ms => wfFs ms
  | _ => true
termination_by v => sizeOf v

/-- Well-formedness of an object member list. -/
def wfFs : List (String × JVal) → Bool
  | [] => true
  | (_, v) :: ms => wfJ v && wfFs ms
termination_by ms => sizeOf ms

end

theorem sizeJ_pos (v : JVal) : 1 ≤ sizeJ v := by
  cases v <;> simp [sizeJ]

mutual

/-- Each node contributes at least one character to the serialization. -/
theorem sizeJ_le_dump (ind : Nat) (v : JVal) : sizeJ v ≤ (jdumpV ind v).length := by
  cases v with
  | jbool b => cases b <;> simp [sizeJ, jdumpV]
  | jint n =>
    have h1 : natChars n.natAbs ≠ [] := natChars_ne_nil _
    have h2 : natChars n.toNat ≠ [] := natChars_ne_nil _
    simp only [sizeJ, jdumpV, intChars]
    split
    · simp [Nat.succ_le, List.length_pos]
    · simp [Nat.succ_le, List.length_pos, h2]
  | jdec ip f fd =>
    have h1 : natChars ip ≠ [] := natChars_ne_nil _
    simp only [sizeJ, jdumpV, List.length_append, List.length_cons]
    omega
  | jstr s =>
    simp [sizeJ, jdumpV, strLit]
  | jobj ms =>
    cases ms with
    | nil => simp [sizeJ, sizeFs, jdumpV]
    | cons m ms =>
      have hm := sizeFs_le_dump (ind + 2) m ms
      simp only [sizeJ, sizeFs, jdumpV, List.length_cons, List.length_append]
      cases m with
      | mk k v => simp [sizeFs] at hm ⊢; omega
termination_by sizeOf v

/-- Each member list contributes at least its size in characters. -/
theorem sizeFs_le_dump (ind : Nat) (m : String × JVal) (ms : List (String × JVal)) :
    sizeFs (m :: ms) ≤ (jdumpFields ind m ms).length := by
  cases m with
  | mk k v =>
    have hv := sizeJ_le_dump ind v
    cases ms with
    | nil =>
      simp only [sizeFs, jdumpFields, List.length_append, List.length_cons, strLit]
      omega
    | cons m' ms' =>
      have hms := sizeFs_le_dump ind m' ms'
      simp only [sizeFs, jdumpFields, List.length_append, List.length_cons, strLit] at hms ⊢
      omega
termination_by sizeOf m + sizeOf ms

end

/-! ## Parser dispatch lemmas -/

theorem parseVal_ws {c : Char} (h : isWs c = true) (fuel : Nat) (cs : List Char) :
    parseVal fuel (c :: cs) = parseVal fuel cs := by
  cases fuel with
  | zero => rfl
  | succ f => simp only [parseVal, skipWs_cons_ws h]

theorem parseMembers_ws {c : Char} (h : isWs c = true) (fuel : Nat) (cs : List Char) :
    parseMembers fuel (c :: cs) = parseMembers fuel cs := by
  cases fuel with
  | zero => rfl
  | succ f => simp only [parseMembers, skipWs_cons_ws h]

theorem parseMembers_spaces (n : Nat) (fuel : Nat) (cs : List Char) :
    parseMembers fuel (spacesL n ++ cs) = parseMembers fuel cs := by
  induction n with
  | zero => rfl
  | succ k ih =>
    rw [spacesL, List.replicate_succ, List.cons_append,
      parseMembers_ws (by decide)]
    exact ih

theorem parseVal_str (fuel : Nat) (cs : List Char) :
    parseVal (fuel + 1) ('"' :: cs) =
      (parseStrBody cs).map (fun p => (JVal.jstr ⟨p.1⟩, p.2)) := by
  rw [parseVal.eq_def]
  rfl

theorem parseVal_true (fuel : Nat) (r : List Char) :
    parseVal (fuel + 1) ('t' :: 'r' :: 'u' :: 'e' :: r) = some (.jbool true, r) := by
  rw [parseVal.eq_def]
  rfl

theorem parseVal_false (fuel : Nat) (r : List Char) :
    parseVal (fuel + 1) ('f' :: 'a' :: 'l' :: 's' :: 'e' :: r) =
      some (.jbool false, r) := by
  rw [parseVal.eq_def]
  rfl

theorem parseVal_obj (fuel : Nat) (cs : List Char) :
    parseVal (fuel + 1) ('\x7b' :: cs) =
      (match skipWs cs with
       | '\x7d' :: r => some (.jobj [], r)
       | _ => (parseMembers fuel cs).map (fun p => (.jobj p.1, p.2))) := by
  rw [parseVal.eq_def]
  rfl

theorem parseVal_num (fuel : Nat) (c : Char) (cs : List Char)
    (hws : isWs c = false) (h1 : c ≠ '"') (h2 : c ≠ 't') (h3 : c ≠ 'f')
    (h4 : c ≠ '\x7b') :
    parseVal (fuel + 1) (c :: cs) = parseNum (c :: cs) := by
  simp only [parseVal, skipWs_cons hws]
  simp only [h1, h2, h3, h4, if_false, ite_false]

/-- Skipping the whitespace before a closing brace. -/
theorem skipWs_closing (j : Nat) (r : List Char) :
    skipWs ('\n' :: (spacesL j ++ '\x7d' :: r)) = '\x7d' :: r := by
  rw [skipWs_cons_ws (by decide), skipWs_spaces, skipWs_cons (by decide)]

theorem headOkNum_lf (X : List Char) : headOkNum ('\n' :: X) :=
  ⟨by decide, by decide⟩

theorem headOkNum_comma (X : List Char) : headOkNum (',' :: X) :=
  ⟨by decide, by decide⟩

/-- A dumped member list begins (after indentation) with a double quote. -/
theorem jdumpFields_skipWs (ind : Nat) (m : String × JVal)
    (ms : List (String × JVal)) (X : List Char) :
    ∃ Y, skipWs (jdumpFields ind m ms ++ X) = '"' :: Y ∧
      jdumpFields ind m ms ++ X = spacesL ind ++ ('"' :: Y) := by
  cases m with
  | mk k v =>
    cases ms with
    | nil =>
      refine ⟨escList k.data ++ '"' :: ':' :: ' ' :: (jdumpV ind v ++ X), ?_, ?_⟩ <;>
        first
        | (rw [jdumpFields]
           simp only [strLit, List.append_assoc, List.cons_append, List.nil_append,
             skipWs_spaces]
           rw [skipWs_cons (by decide)])
        | (rw [jdumpFields]
           simp only [strLit, List.append_assoc, List.cons_append, List.nil_append])
    | cons m' ms' =>
      refine ⟨escList k.data ++ '"' :: ':' :: ' ' ::
        (jdumpV ind v ++ (',' :: '\n' :: jdumpFields ind m' ms' ++ X)), ?_, ?_⟩ <;>
        first
        | (rw [jdumpFields]
           simp only [strLit, List.append_assoc, List.cons_append, List.nil_append,
             skipWs_spaces]
           rw [skipWs_cons (by decide)])
        | (rw [jdumpFields]
           simp only [strLit, List.append_assoc, List.cons_append, List.nil_append])

theorem strMk_data (s : String) : String.mk s.data = s := rfl

/-- Reducing the object branch of `parseVal` when the brace is not
immediately closed. -/
theorem parseVal_obj_default (fuel : Nat) (cs Y : List Char)
    (h : skipWs cs = '"' :: Y) :
    (match skipWs cs with
     | '\x7d' :: r => some (JVal.jobj [], r)
     | _ => (parseMembers fuel cs).map (fun p => (JVal.jobj p.1, p.2))) =
      (parseMembers fuel cs).map (fun p => (JVal.jobj p.1, p.2)) := by
  rw [h]
  rfl

/-! ## The parser inverts the serializer -/

theorem parse_jdump : ∀ fuel : Nat,
    (∀ ind v r, wfJ v = true → sizeJ v ≤ fuel → headOkNum r →
      parseVal fuel (jdumpV ind v ++ r) = some (v, r)) ∧
    (∀ ind j m ms r, wfFs (m :: ms) = true → sizeFs (m :: ms) ≤ fuel →
      parseMembers fuel
          (jdumpFields ind m ms ++ '\n' :: (spacesL j ++ '\x7d' :: r)) =
        some (m :: ms, r)) := by
  intro fuel
  induction fuel with
  | zero =>
    constructor
    · intro ind v r _ hsz _
      have := sizeJ_pos v
      omega
    · intro ind j m ms r _ hsz
      cases m with
      | mk k v =>
        have := sizeJ_pos v
        simp [sizeFs] at hsz
  | succ fuel ih =>
    obtain ⟨ihV, ihM⟩ := ih
    constructor
    · intro ind v r hwf hsz hr
      cases v with
      | jbool b =>
        cases b
        · have hd : jdumpV ind (.jbool false) = ['f', 'a', 'l', 's', 'e'] := by
            rw [jdumpV]
          rw [hd]
          simp only [List.cons_append, List.nil_append]
          exact parseVal_false fuel r
        · have hd : jdumpV ind (.jbool true) = ['t', 'r', 'u', 'e'] := by
            rw [jdumpV]
          rw [hd]
          simp only [List.cons_append, List.nil_append]
          exact parseVal_true fuel r
      | jstr s =>
        have hin : jdumpV ind (.jstr s) ++ r = '"' :: (escList s.data ++ '"' :: r) := by
          simp [jdumpV, strLit]
        rw [hin, parseVal_str, parseStrBody_escList]
        rfl
      | jint n =>
        by_cases hneg : n < 0
        · have hin : jdumpV ind (.jint n) ++ r = '-' :: (natChars n.natAbs ++ r) := by
            simp [jdumpV, intChars, hneg]
          rw [hin, parseVal_num fuel '-' _ (by decide) (by decide) (by decide)
            (by decide) (by decide), ← List.cons_append,
            show ('-' :: natChars n.natAbs : List Char) = intChars n by
              simp [intChars, hneg]]
          exact parseNum_intChars n r hr
        · obtain ⟨d, l, hdl, hd⟩ := exists_natChars_cons n.toNat
          have hic : intChars n = d :: l := by rw [intChars, if_neg hneg, hdl]
          have hin : jdumpV ind (.jint n) ++ r = d :: (l ++ r) := by
            simp [jdumpV, hic]
          rw [hin, parseVal_num fuel d _ (isWs_of_digit hd)
            (digit_ne hd _ (by decide)) (digit_ne hd _ (by decide))
            (digit_ne hd _ (by decide)) (digit_ne hd _ (by decide)),
            ← List.cons_append, ← hic]
          exact parseNum_intChars n r hr
      | jdec ip f fd =>
        rw [wfJ] at hwf
        simp only [Bool.and_eq_true, decide_eq_true_eq] at hwf
        obtain ⟨d, l, hdl, hd⟩ := exists_natChars_cons ip
        have hin : jdumpV ind (.jdec ip f fd) ++ r =
            d :: (l ++ ('.' :: fracChars fd f ++ r)) := by
          simp [jdumpV, hdl, List.append_assoc]
        rw [hin, parseVal_num fuel d _ (isWs_of_digit hd)
          (digit_ne hd _ (by decide)) (digit_ne hd _ (by decide))
          (digit_ne hd _ (by decide)) (digit_ne hd _ (by decide))]
        have hback : d :: (l ++ ('.' :: fracChars fd f ++ r)) =
            (natChars ip ++ '.' :: fracChars fd f) ++ r := by
          simp [hdl, List.append_assoc]
        rw [hback]
        exact parseNum_dec ip f fd hwf.1 hwf.2 r hr
      | jobj ms =>
        cases ms with
        | nil =>
          have hd : jdumpV ind (.jobj []) = ['\x7b', '\x7d'] := by
            rw [jdumpV]
          rw [hd]
          simp only [List.cons_append, List.nil_append]
          rw [parseVal_obj, skipWs_cons (by decide)]
          rfl
        | cons m ms =>
          rw [wfJ] at hwf
          rw [sizeJ] at hsz
          have hin : jdumpV ind (.jobj (m :: ms)) ++ r =
              '\x7b' :: ('\n' :: (jdumpFields (ind + 2) m ms ++
                '\n' :: (spacesL ind ++ '\x7d' :: r))) := by
            rw [jdumpV]
            simp [List.append_assoc]
          rw [hin, parseVal_obj]
          obtain ⟨Y, hY, _⟩ := jdumpFields_skipWs (ind + 2) m ms
            ('\n' :: (spacesL ind ++ '\x7d' :: r))
          have hscrut : skipWs ('\n' :: (jdumpFields (ind + 2) m ms ++
              '\n' :: (spacesL ind ++ '\x7d' :: r))) = '"' :: Y := by
            rw [skipWs_cons_ws (by decide)]
            exact hY
          rw [parseVal_obj_default fuel _ Y hscrut,
            parseMembers_ws (by decide),
            ihM (ind + 2) ind m ms r hwf (by omega)]
          rfl
    · intro ind j m ms r hwf hsz
      cases m with
      | mk k v =>
        rw [wfFs] at hwf
        simp only [Bool.and_eq_true] at hwf
        rw [sizeFs] at hsz
        cases ms with
        | nil =>
          have hv : parseVal fuel (jdumpV ind v ++
              ('\n' :: (spacesL j ++ '\x7d' :: r))) =
              some (v, '\n' :: (spacesL j ++ '\x7d' :: r)) :=
            ihV ind v _ hwf.1 (by omega) (headOkNum_lf _)
          have hin : jdumpFields ind (k, v) [] ++ '\n' :: (spacesL j ++ '\x7d' :: r) =
              spacesL ind ++ ('"' :: (escList k.data ++ '"' ::
                (':' :: (' ' :: (jdumpV ind v ++
                  ('\n' :: (spacesL j ++ '\x7d' :: r))))))) := by
            rw [jdumpFields]
            simp [strLit, List.append_assoc]
          rw [hin, parseMembers_spaces]
          simp only [parseMembers, skipWs_cons (show isWs '"' = false by decide),
            parseStrBody_escList, skipWs_cons (show isWs ':' = false by decide),
            parseVal_ws (show isWs ' ' = true by decide), hv, skipWs_closing,
            strMk_data]
        | cons m' ms' =>
          have hv : parseVal fuel (jdumpV ind v ++
              (',' :: ('\n' :: (jdumpFields ind m' ms' ++
                '\n' :: (spacesL j ++ '\x7d' :: r))))) =
              some (v, ',' :: ('\n' :: (jdumpFields ind m' ms' ++
                '\n' :: (spacesL j ++ '\x7d' :: r)))) :=
            ihV ind v _ hwf.1 (by omega) (headOkNum_comma _)
          have hms : parseMembers fuel (jdumpFields ind m' ms' ++
              '\n' :: (spacesL j ++ '\x7d' :: r)) = some (m' :: ms', r) :=
            ihM ind j m' ms' r hwf.2 (by omega)
          have hin : jdumpFields ind (k, v) (m' :: ms') ++
              '\n' :: (spacesL j ++ '\x7d' :: r) =
              spacesL ind ++ ('"' :: (escList k.data ++ '"' ::
                (':' :: (' ' :: (jdumpV ind v ++
                  (',' :: ('\n' :: (jdumpFields ind m' ms' ++
                    '\n' :: (spacesL j ++ '\x7d' :: r))))))))) := by
            rw [jdumpFields]
            simp [strLit, List.append_assoc]
          rw [hin, parseMembers_spaces]
          simp only [parseMembers, skipWs_cons (show isWs '"' = false by decide),
            parseStrBody_escList, skipWs_cons (show isWs ':' = false by decide),
            parseVal_ws (show isWs ' ' = true by decide), hv,
            skipWs_cons (show isWs ',' = false by decide),
            parseMembers_ws (show isWs '\n' = true by decide), hms,
            strMk_data, Option.map_some]
          rfl

/-- `json.load` recovers every well-formed document `json.dump` writes. -/
theorem jload_jdump (v : JVal) (h : wfJ v = true) : jload (jdump v) = some v := by
  have hsz : sizeJ v ≤ (jdumpV 0 v).length + 1 :=
    le_trans (sizeJ_le_dump 0 v) (by omega)
  have hmain := (parse_jdump ((jdumpV 0 v).length + 1)).1 0 v [] h hsz trivial
  rw [List.append_nil] at hmain
  rw [jload, jdump, jloadList]
  rw [show (String.mk (jdumpV 0 v)).data = jdumpV 0 v from rfl]
  rw [show (jdumpV 0 v).length + 1 = (jdumpV 0 v).length + 1 from rfl] at hmain
  rw [hmain]
  rfl

/-! ## The application model (`app.py`)

The remaining definitions translate the Flask application itself.
External collaborators are modelled as follows:
* `Env` supplies one outcome per external call a request can make
  (`datetime.now`, `file.save`, `PIL.Image.open`, the three
  `model.generate_content` call sites, `json.dump`-to-disk);
* `World` is the filesystem state: the `uploads/` and `outputs/`
  directories as association lists (newest first; `lookupA` takes the
  first match, so a later write to the same name shadows the older one,
  like `open(path, 'w')`);
* `Trace` records the prompts sent to the external model and the file
  paths read during the request. -/

/-- `ALLOWED_EXTENSIONS = {'png', 'jpg', 'jpeg', 'gif', 'bmp'}` -/
def ALLOWED_EXTENSIONS : List String := ["png", "jpg", "jpeg", "gif", "bmp"]

/-- The characters of a string after its last `sep`; this is
`s.rsplit(sep, 1)[1]` when `sep` occurs in `s`. -/
def afterLast (sep : Char) (l : List Char) : List Char :=
  (l.reverse.takeWhile (fun c => c ≠ sep)).reverse

/-- Python `str.lower()` (ASCII case folding; agrees with Python on the
ASCII filenames at issue). -/
def pyLower (s : String) : String := String.mk (s.data.map Char.toLower)

/-- `allowed_file(filename)` from `app.py`:
`'.' in filename and filename.rsplit('.', 1)[1].lower() in ALLOWED_EXTENSIONS`. -/
def allowed_file (filename : String) : Bool :=
  filename.data.contains '.' &&
    ALLOWED_EXTENSIONS.contains (pyLower (String.mk (afterLast '.' filename.data)))

/-- Python's banker's rounding (`round`) to an integer, on exact rationals. -/
def roundHalfEven (q : ℚ) : ℤ :=
  if q - ⌊q⌋ < 1 / 2 then ⌊q⌋
  else if 1 / 2 < q - ⌊q⌋ then ⌊q⌋ + 1
  else if ⌊q⌋ % 2 = 0 then ⌊q⌋ else ⌊q⌋ + 1

/-- `round(x, 2)` on exact rationals. -/
def round2 (q : ℚ) : ℚ := (roundHalfEven (q * 100) : ℚ) / 100

/-- The dictionary built by `process_image_dimensions`. -/
structure ImageInfo where
  width : Nat
  height : Nat
  aspect_ratio : ℚ

/-- `process_image_dimensions(image)` from `app.py`: keeps the decoded
width and height and computes `round(width / height, 2)`.  (Python floats
are modelled as exact rationals; `height = 0` cannot occur for a decoded
image, PIL dimensions are at least 1, so Lean's `x / 0 = 0` convention
stands in for the unreachable `ZeroDivisionError`.) -/
def process_image_dimensions (width height : Nat) : ImageInfo :=
  { width := width, height := height,
    aspect_ratio := round2 ((width : ℚ) / (height : ℚ)) }

/-- The hundredths of an app-produced aspect ratio (always an exact
multiple of `1/100`). -/
def hundredths (q : ℚ) : Nat := (q * 100).num.toNat

/-- The decimal literal `json.dump` writes for a float equal to `n/100`
(shortest float `repr`: at least one fractional digit, at most two,
trailing zero dropped). -/
def jdecOfHundredths (n : Nat) : JVal :=
  if n % 100 = 0 then .jdec (n / 100) 0 1
  else if n % 10 = 0 then .jdec (n / 100) (n % 100 / 10) 1
  else .jdec (n / 100) (n % 100) 2

/-- The `image_info` sub-dictionary as a JSON value. -/
def imageInfoJson (i : ImageInfo) : JVal :=
  .jobj [("width", .jint i.width), ("height", .jint i.height),
         ("aspect_ratio", jdecOfHundredths (hundredths i.aspect_ratio))]

/-- The `analysis_data` dictionary persisted by the analyze handler. -/
def analysisRecordJson (ts fname : String) (info : ImageInfo) (text : String) : JVal :=
  .jobj [("timestamp", .jstr ts), ("filename", .jstr fname),
         ("image_info", imageInfoJson info), ("analysis", .jstr text),
         ("success", .jbool true)]

/-- The `plan_data` dictionary persisted by the plan handler
(`requirements` keeps whatever JSON value the client sent). -/
def planRecordJson (ts : String) (requirements : JVal) (text : String) : JVal :=
  .jobj [("timestamp", .jstr ts), ("requirements", requirements),
         ("generated_plan", .jstr text), ("success", .jbool true)]

/-- An uploaded multipart file: client-supplied name and raw bytes. -/
structure UploadFile where
  filename : String
  content : String

/-- The filesystem: the `uploads/` and `outputs/` directories. -/
structure World where
  uploads : List (String × String)
  outputs : List (String × String)

/-- External effects performed while handling one request. -/
structure Trace where
  gatewayCalls : List String
  fileReads : List String

/-- First-match association lookup (a newer write shadows an older one). -/
def lookupA : List (String × String) → String → Option String
  | [], _ => none
  | (k, v) :: fs, key => if k = key then some v else lookupA fs key

/-- Lookup of a key in a parsed JSON object (`data.get(key)`). -/
def lookupF : List (String × JVal) → String → Option JVal
  | [], _ => none
  | (k, v) :: fs, key => if k = key then some v else lookupF fs key

/-- Python truthiness of a JSON value (`if not requirements:`). -/
def pyTruthy : JVal → Bool
  | .jbool b => b
  | .jint n => decide (n ≠ 0)
  | .jdec ip f _ => !(decide (ip = 0) && decide (f = 0))
  | .jstr s => decide (s ≠ "")
  | .jobj fs => !fs.isEmpty

/-- Python `str()` of a JSON value, used when the plan prompt embeds the
client's `requirements` (a client normally sends a string; the non-string
cases are approximations that no claim depends on). -/
def pyStr : JVal → String
  | .jstr s => s
  | .jint n => String.mk (intChars n)
  | .jbool true => "True"
  | .jbool false => "False"
  | .jdec ip f fd => String.mk (natChars ip ++ '.' :: fracChars fd f)
  | .jobj _ => "\x7b...\x7d"

/-- One fixed outcome for each external call a request can make. -/
structure Env where
  now : String
  nowIso : String
  apiKey : String
  saveUpload : Except String Unit
  openImage : Except String (Nat × Nat)
  genAnalyze : Except String String
  genPlan : Except String String
  genTest : Except String String
  writeAnalysis : Except String Unit
  writePlan : Except String Unit

/-- One entry of the `/history` listing, as built by `get_history`:
the file name, the raw `data.get('timestamp', '')` value, and the
inferred `type`. -/
structure HistEntry where
  filename : String
  timestampJ : JVal
  type : String

/-- Response bodies: a `jsonify` document, raw file bytes from
`send_from_directory`, the history listing (its JSON array serialization
is not further modelled), or the rendered landing page. -/
inductive RBody where
  | jsonB (v : JVal)
  | fileB (content : String)
  | histB (files : List HistEntry) (success : Bool)
  | pageB (name : String)

/-- An HTTP response: body and status code (`jsonify` defaults to 200). -/
structure Response where
  body : RBody
  status : Nat

/-- The `{'error': msg, 'success': False}` envelope all handlers return on
failure, with the default 200 status. -/
def errResp (msg : String) : Response :=
  ⟨.jsonB (.jobj [("error", .jstr msg), ("success", .jbool false)]), 200⟩

/-- `app.config['MAX_CONTENT_LENGTH'] = 16 * 1024 * 1024`. -/
def MAX_CONTENT_LENGTH : Nat := 16 * 1024 * 1024

/-- Modelled from werkzeug: `str()` of the `RequestEntityTooLarge`
exception raised when a handler first reads an over-limit body. -/
def reqTooLargeMsg : String :=
  "413 Request Entity Too Large: The data value transmitted exceeds the capacity limit."

/-- Modelled from werkzeug: `str()` of the `BadRequest` raised by
`request.get_json()` on an unparseable body. -/
def badRequestMsg : String :=
  "400 Bad Request: The browser (or proxy) sent a request that this server could not understand."

/-- Modelled from Python: message of the `AttributeError` raised by
`data.get(...)` when the parsed JSON body is not an object. -/
def attrGetMsg : String := "object has no attribute 'get'"

/-- Modelled from the werkzeug `secure_filename` documentation: keeps
ASCII letters, digits, dots, dashes and underscores and drops the rest
(the real function also transliterates; no claim depends on the details). -/
def secure_filename (s : String) : String :=
  String.mk (s.data.filter (fun c => c.isAlphanum || c = '.' || c = '-' || c = '_'))

/-- The fixed analysis prompt of the analyze handler. -/
def analysisPrompt : String :=
  "\n" ++
  "        You are an expert architect and floor plan analyzer. Analyze this floor plan image and provide:\n" ++
  "\n" ++
  "        1. **DIMENSIONS ANALYSIS:**\n" ++
  "           - Estimate the total floor area in square feet\n" ++
  "           - Identify the approximate length and width of the property\n" ++
  "           - Calculate room dimensions where visible\n" ++
  "\n" ++
  "        2. **SPACE IDENTIFICATION:**\n" ++
  "           - List all identifiable rooms and spaces\n" ++
  "           - Estimate the size of each room in square feet\n" ++
  "           - Identify doors, windows, and openings\n" ++
  "\n" ++
  "        3. **OPTIMAL LAYOUT RECOMMENDATIONS:**\n" ++
  "           - Suggest improvements for space utilization\n" ++
  "           - Recommend furniture placement for each room\n" ++
  "           - Identify potential traffic flow issues\n" ++
  "           - Suggest lighting and ventilation considerations\n" ++
  "\n" ++
  "        4. **MEASUREMENTS & SPECIFICATIONS:**\n" ++
  "           - Provide specific measurements in feet and inches\n" ++
  "           - Calculate total usable space vs. circulation space\n" ++
  "           - Identify any structural elements (walls, columns, etc.)\n" ++
  "\n" ++
  "        5. **DESIGN SUGGESTIONS:**\n" ++
  "           - Recommend color schemes for different areas\n" ++
  "           - Suggest materials for flooring in different rooms\n" ++
  "           - Provide storage solutions for each space\n" ++
  "\n" ++
  "        Please format your response in clear sections with bullet points and specific measurements where possible.\n" ++
  "        "

/-- The f-string plan prompt with the client's requirements embedded. -/
def planPrompt (requirements : String) : String :=
  "\n" ++
  "        Based on these requirements: \"" ++ requirements ++ "\"\n" ++
  "        \n" ++
  "        Generate a detailed floor plan with:\n" ++
  "        1. Room layout and dimensions\n" ++
  "        2. Door and window placements\n" ++
  "        3. Furniture arrangement suggestions\n" ++
  "        4. Traffic flow optimization\n" ++
  "        5. Lighting and electrical recommendations\n" ++
  "        6. Plumbing considerations\n" ++
  "        7. Storage solutions\n" ++
  "        \n" ++
  "        Provide specific measurements and practical implementation details.\n" ++
  "        "

/-- The fixed connectivity-probe prompt of `/test_api`. -/
def testPrompt : String := "Say 'Hello, Gemini API is working!'"

/-- A POST `/analyze` request: body size and the `image` multipart field. -/
structure AnalyzeRequest where
  contentLength : Nat
  files_image : Option UploadFile

/-- A POST `/generate_plan` request: body size and the parsed JSON body
(`none` models a body `request.get_json()` cannot parse). -/
structure PlanRequest where
  contentLength : Nat
  body : Option JVal

/-- The `/analyze` handler (`analyze_image` in `app.py`).  The whole body
runs inside `try/except Exception`: every raised exception (modelled by the
`.error` outcomes and the over-limit body, which raises when
`request.files` is first touched) is converted to the
`{'error': ..., 'success': False}` envelope with status 200.  Side effects
performed before the exception persist. -/
def analyze_image (req : AnalyzeRequest) (env : Env) (w : World) :
    Response × World × Trace :=
  if req.contentLength > MAX_CONTENT_LENGTH then
    (errResp ("Error processing image: " ++ reqTooLargeMsg), w, ⟨[], []⟩)
  else
    match req.files_image with
    | none => (errResp "No image uploaded", w, ⟨[], []⟩)
    | some file =>
      if file.filename = "" then (errResp "No file selected", w, ⟨[], []⟩)
      else if !allowed_file file.filename then
        (errResp "Invalid file type. Please upload an image.", w, ⟨[], []⟩)
      else
        let filename := env.now ++ "_" ++ secure_filename file.filename
        match env.saveUpload with
        | .error e => (errResp ("Error processing image: " ++ e), w, ⟨[], []⟩)
        | .ok _ =>
          let w1 : World := { w with uploads := (filename, file.content) :: w.uploads }
          match env.openImage with
          | .error e =>
            (errResp ("Error processing image: " ++ e), w1, ⟨[], ["uploads/" ++ filename]⟩)
          | .ok wh =>
            let info := process_image_dimensions wh.1 wh.2
            match env.genAnalyze with
            | .error e =>
              (errResp ("Error processing image: " ++ e), w1,
               ⟨[analysisPrompt], ["uploads/" ++ filename]⟩)
            | .ok text =>
              if text = "" then
                (errResp "No response from AI model", w1,
                 ⟨[analysisPrompt], ["uploads/" ++ filename]⟩)
              else
                let analysis_data := analysisRecordJson env.now filename info text
                match env.writeAnalysis with
                | .error e =>
                  (errResp ("Error processing image: " ++ e), w1,
                   ⟨[analysisPrompt], ["uploads/" ++ filename]⟩)
                | .ok _ =>
                  (⟨.jsonB analysis_data, 200⟩,
                   { w1 with outputs :=
                      ("analysis_" ++ env.now ++ ".json", jdump analysis_data)
                        :: w1.outputs },
                   ⟨[analysisPrompt], ["uploads/" ++ filename]⟩)

/-- The `/generate_plan` handler (`generate_plan` in `app.py`), with the
same `try/except`-to-envelope behaviour. -/
def generate_plan (req : PlanRequest) (env : Env) (w : World) :
    Response × World × Trace :=
  if req.contentLength > MAX_CONTENT_LENGTH then
    (errResp ("Error generating plan: " ++ reqTooLargeMsg), w, ⟨[], []⟩)
  else
    match req.body with
    | none => (errResp ("Error generating plan: " ++ badRequestMsg), w, ⟨[], []⟩)
    | some (.jobj fields) =>
      let requirements := (lookupF fields "requirements").getD (.jstr "")
      if !pyTruthy requirements then
        (errResp "No requirements provided", w, ⟨[], []⟩)
      else
        match env.genPlan with
        | .error e =>
          (errResp ("Error generating plan: " ++ e), w,
           ⟨[planPrompt (pyStr requirements)], []⟩)
        | .ok text =>
          if text = "" then
            (errResp "No response from AI model", w,
             ⟨[planPrompt (pyStr requirements)], []⟩)
          else
            let plan_data := planRecordJson env.now requirements text
            match env.writePlan with
            | .error e =>
              (errResp ("Error generating plan: " ++ e), w,
               ⟨[planPrompt (pyStr requirements)], []⟩)
            | .ok _ =>
              (⟨.jsonB plan_data, 200⟩,
               { w with outputs :=
                  ("plan_" ++ env.now ++ ".json", jdump plan_data) :: w.outputs },
               ⟨[planPrompt (pyStr requirements)], []⟩)
    | some _ => (errResp ("Error generating plan: " ++ attrGetMsg), w, ⟨[], []⟩)

/-- The `/test_api` handler: probes the model, never raises. -/
def test_api (env : Env) : Response × Trace :=
  match env.genTest with
  | .ok text =>
    (⟨.jsonB (.jobj [("success", .jbool true),
        ("message", .jstr "API connection successful"),
        ("response", .jstr text),
        ("api_key_configured", .jbool (decide (env.apiKey ≠ "")))]), 200⟩,
     ⟨[testPrompt], []⟩)
  | .error e =>
    (⟨.jsonB (.jobj [("success", .jbool false), ("error", .jstr e),
        ("api_key_configured", .jbool (decide (env.apiKey ≠ "")))]), 200⟩,
     ⟨[testPrompt], []⟩)

/-- The `/health` handler. -/
def health_check (env : Env) : Response :=
  ⟨.jsonB (.jobj [("status", .jstr "healthy"), ("timestamp", .jstr env.nowIso),
      ("gemini_configured", .jbool (decide (env.apiKey ≠ ""))),
      ("api_key_length", .jint env.apiKey.length)]), 200⟩

/-- `filename.endswith('.json')`. -/
def pyEndsWith (s suffix : String) : Bool := suffix.data.isSuffixOf s.data

/-- Whether a JSON value is a string. -/
def JVal.isStr : JVal → Bool
  | .jstr _ => true
  | _ => false

/-- The string carried by a JSON string value. -/
def JVal.strVal : JVal → String
  | .jstr s => s
  | _ => ""

/-- The sort key of a history entry. -/
def tsOf (e : HistEntry) : String := e.timestampJ.strVal

/-- One iteration of the `/history` scan for a directory entry: files not
ending in `.json` are not opened; a file whose contents fail to parse, or
parse to a non-object (so that `data.get` raises `AttributeError` inside
the inner `try`), is silently skipped; otherwise the projection is built,
tagging `'analysis' if 'analysis' in data else 'plan'`. -/
def historyEntry (name content : String) : Option HistEntry :=
  if pyEndsWith name ".json" then
    match jload content with
    | some (.jobj fields) =>
      some ⟨name, (lookupF fields "timestamp").getD (.jstr ""),
            if (lookupF fields "analysis").isSome then "analysis" else "plan"⟩
    | _ => none
  else none

/-- The `/history` handler's core: collect entries, then
`files.sort(key=lambda x: x['timestamp'], reverse=True)`.  Python's sort
raises `TypeError` (caught by the handler's `except`, which returns the
error envelope) when the timestamps are not mutually comparable; records
written by this app always carry string timestamps, so the model sorts
when every timestamp is a string and errors otherwise. -/
def get_history (outputs : List (String × String)) : Except String (List HistEntry) :=
  let entries := outputs.filterMap (fun p => historyEntry p.1 p.2)
  if entries.all (fun e => e.timestampJ.isStr) then
    .ok (List.insertionSort (fun a b => tsOf b ≤ tsOf a) entries)
  else
    .error "Error fetching history: unorderable types in sort"

/-- The `/history` handler's response. -/
def history_response (outputs : List (String × String)) : Response × Trace :=
  let reads := (outputs.filter (fun p => pyEndsWith p.1 ".json")).map
    (fun p => "outputs/" ++ p.1)
  match get_history outputs with
  | .ok files => (⟨.histB files true, 200⟩, ⟨[], reads⟩)
  | .error e => (errResp e, ⟨[], reads⟩)

/-- Modelled from werkzeug: `str()` of the `NotFound` exception. -/
def notFoundMsg : String :=
  "404 Not Found: The requested URL was not found on the server. If you entered the URL manually please check your spelling and try again."

/-- Split a character sequence at `/` separators. -/
def segsOf : List Char → List (List Char)
  | [] => [[]]
  | c :: cs =>
    match segsOf cs with
    | [] => [[]]
    | seg :: rest => if c = '/' then [] :: seg :: rest else (c :: seg) :: rest

/-- Modelled from werkzeug's `safe_join` (used by `send_from_directory`):
the untrusted filename must be a normalized relative path, i.e. contain no
empty, `.` or `..` segments; otherwise `NotFound` is raised. -/
def safe_join_ok (fn : String) : Bool :=
  (segsOf fn.data).all
    (fun seg => decide (seg ≠ []) && decide (seg ≠ ['.']) && decide (seg ≠ ['.', '.']))

/-- Modelled from Flask's `send_from_directory`: resolves the name inside
the output directory, raising `NotFound` (the `.error` case) for unsafe
names and missing files; on success returns the path read and its bytes. -/
def send_from_directory (outputs : List (String × String)) (fn : String) :
    Except String (String × String) :=
  if safe_join_ok fn then
    match lookupA outputs fn with
    | some content => .ok ("outputs/" ++ fn, content)
    | none => .error notFoundMsg
  else .error notFoundMsg

/-- The `/download/<filename>` handler: the `NotFound` raised by
`send_from_directory` is caught by the handler's `except Exception` and
turned into the JSON envelope (with the default 200 status). -/
def download_file (fn : String) (outputs : List (String × String)) :
    Response × Trace :=
  match send_from_directory outputs fn with
  | .ok pc => (⟨.fileB pc.2, 200⟩, ⟨[], [pc.1]⟩)
  | .error e => (errResp ("File not found: " ++ e), ⟨[], []⟩)

/-- The registered 413 handler (`too_large` in `app.py`). -/
def too_large : Response :=
  ⟨.jsonB (.jobj [("error", .jstr "File too large. Maximum size is 16MB."),
      ("success", .jbool false)]), 413⟩

/-- The registered 404 handler (`not_found` in `app.py`). -/
def not_found : Response :=
  ⟨.jsonB (.jobj [("error", .jstr "Endpoint not found"),
      ("success", .jbool false)]), 404⟩

/-- The registered 500 handler (`internal_error` in `app.py`). -/
def internal_error : Response :=
  ⟨.jsonB (.jobj [("error", .jstr "Internal server error"),
      ("success", .jbool false)]), 500⟩

/-- Routing of GET requests.  A `/download/<filename>` URL only matches
when the `<filename>` segment is non-empty and contains no `/` (werkzeug's
default path converter); any unmatched path gets the 404 envelope.  None
of these handlers writes to the filesystem, so the `World` is returned
unchanged. -/
def routeGet (path : List Char) (env : Env) (w : World) :
    Response × World × Trace :=
  if path = "/".data then (⟨.pageB "index.html", 200⟩, w, ⟨[], []⟩)
  else if path = "/test_api".data then
    let rt := test_api env
    (rt.1, w, rt.2)
  else if path = "/history".data then
    let rt := history_response w.outputs
    (rt.1, w, rt.2)
  else if path = "/health".data then (health_check env, w, ⟨[], []⟩)
  else
    match path with
    | '/' :: 'd' :: 'o' :: 'w' :: 'n' :: 'l' :: 'o' :: 'a' :: 'd' :: '/' :: rest =>
      if !rest.isEmpty && !rest.contains '/' then
        let rt := download_file (String.mk rest) w.outputs
        (rt.1, w, rt.2)
      else (not_found, w, ⟨[], []⟩)
    | _ => (not_found, w, ⟨[], []⟩)

/-! ## Helper lemmas about responses and records -/

/-- The `success` flag of a JSON response body, if it has one. -/
def bodySuccess : RBody → Option Bool
  | .jsonB (.jobj fs) =>
    match lookupF fs "success" with
    | some (.jbool b) => some b
    | _ => none
  | _ => none

/-- The `error` message of a JSON response body, if it has one. -/
def bodyError : RBody → Option String
  | .jsonB (.jobj fs) =>
    match lookupF fs "error" with
    | some (.jstr m) => some m
    | _ => none
  | _ => none

/-- A response is well-shaped: HTTP 200 and either a `success: true`
payload or the `{success: false, error: <non-empty>}` envelope. -/
def envOk (r : Response) : Prop :=
  r.status = 200 ∧
    (bodySuccess r.body = some true ∨
      (bodySuccess r.body = some false ∧
        ∃ m, bodyError r.body = some m ∧ m ≠ ""))

theorem bodySuccess_errResp (m : String) :
    bodySuccess (errResp m).body = some false := rfl

theorem bodyError_errResp (m : String) : bodyError (errResp m).body = some m := rfl

theorem envOk_errResp {m : String} (h : m ≠ "") : envOk (errResp m) :=
  ⟨rfl, Or.inr ⟨rfl, m, rfl, h⟩⟩

theorem append_ne_empty {a : String} (h : a.data ≠ []) (b : String) :
    a ++ b ≠ "" := by
  intro hab
  apply h
  have hd := congrArg String.data hab
  rw [String.data_append] at hd
  exact (List.append_eq_nil.mp hd).1

/-- A concrete environment used by witnesses and counterexamples. -/
def envW : Env :=
  { now := "20250101_120000", nowIso := "2025-01-01T12:00:00",
    apiKey := "k", saveUpload := .ok (), openImage := .ok (10, 10),
    genAnalyze := .ok "ROOM: 100sqft", genPlan := .ok "PLAN",
    genTest := .ok "ok", writeAnalysis := .ok (), writePlan := .ok () }

/-- The empty filesystem, used by witnesses. -/
def worldW : World := ⟨[], []⟩

/-- C1: the configured body limit is far above the tiny witness bodies. -/
theorem le_MAX_of_small {n : Nat} (h : n ≤ 1024) : n ≤ MAX_CONTENT_LENGTH := by
  unfold MAX_CONTENT_LENGTH
  omega

/-- **C1.** A POST `/generate_plan` whose JSON body has `requirements`
equal to the empty string, or missing, is answered with the
`{'error': 'No requirements provided', 'success': False}` envelope, the
external model is not called, and the filesystem (in particular the
output directory) is unchanged. -/
theorem c1_empty_requirements (env : Env) (w : World) (cl : Nat)
    (fields : List (String × JVal)) (hcl : cl ≤ MAX_CONTENT_LENGTH)
    (hreq : lookupF fields "requirements" = none ∨
      lookupF fields "requirements" = some (.jstr "")) :
    generate_plan ⟨cl, some (.jobj fields)⟩ env w =
      (errResp "No requirements provided", w, ⟨[], []⟩) := by
  rw [generate_plan, if_neg (Nat.not_lt.mpr hcl)]
  rcases hreq with h | h <;> simp [h, pyTruthy]

/-- Witness for C1 at a concrete request. -/
theorem c1_empty_requirements_witness :
    (0 ≤ MAX_CONTENT_LENGTH ∧
      lookupF [("requirements", JVal.jstr "")] "requirements" =
        some (.jstr "")) ∧
    generate_plan ⟨0, some (.jobj [("requirements", JVal.jstr "")])⟩ envW worldW =
      (errResp "No requirements provided", worldW, ⟨[], []⟩) :=
  ⟨⟨Nat.zero_le _, rfl⟩,
   c1_empty_requirements envW worldW 0 [("requirements", JVal.jstr "")]
     (Nat.zero_le _) (Or.inr rfl)⟩

/-! ## C10: aspect ratio -/

theorem abs_roundHalfEven_sub (q : ℚ) : |(roundHalfEven q : ℚ) - q| ≤ 1 / 2 := by
  unfold roundHalfEven
  have h1 : (⌊q⌋ : ℚ) ≤ q := Int.floor_le q
  have h2 : q < ⌊q⌋ + 1 := Int.lt_floor_add_one q
  split_ifs with ha hb hc
  · rw [abs_le]; constructor <;> push_cast <;> linarith
  · rw [abs_le]; constructor <;> push_cast at ha hb ⊢ <;> linarith
  · rw [abs_le]; constructor <;> push_cast at ha hb ⊢ <;> linarith
  · rw [abs_le]; constructor <;> push_cast at ha hb ⊢ <;> linarith

/-- **C10.** For every decoded image with positive height, the embedded
`ImageInfo` keeps the width and height unchanged and carries as
`aspect_ratio` the quotient rounded to exactly two decimal places: an
exact multiple of `1/100` within half a hundredth of `width/height` —
and not, in general, the exact quotient; a 10×10 image yields `1.0`. -/
theorem c10_aspect_ratio (w h : Nat) (hpos : 0 < h) :
    (process_image_dimensions w h).width = w ∧
    (process_image_dimensions w h).height = h ∧
    ((process_image_dimensions w h).aspect_ratio * 100).den = 1 ∧
    |(process_image_dimensions w h).aspect_ratio - (w : ℚ) / (h : ℚ)| ≤ 1 / 200 ∧
    (process_image_dimensions 10 10).aspect_ratio = 1 ∧
    (process_image_dimensions 1 3).aspect_ratio ≠ (1 : ℚ) / 3 := by
  refine ⟨rfl, rfl, ?_, ?_, ?_, ?_⟩
  · show ((round2 ((w : ℚ) / (h : ℚ))) * 100).den = 1
    rw [round2]
    rw [div_mul_cancel₀ _ (by norm_num : (100 : ℚ) ≠ 0)]
    exact Rat.intCast_den _
  · show |round2 ((w : ℚ) / (h : ℚ)) - (w : ℚ) / (h : ℚ)| ≤ 1 / 200
    have hq := abs_roundHalfEven_sub (((w : ℚ) / (h : ℚ)) * 100)
    rw [round2]
    have hstep : (roundHalfEven (((w : ℚ) / (h : ℚ)) * 100) : ℚ) / 100 -
        (w : ℚ) / (h : ℚ) =
        ((roundHalfEven (((w : ℚ) / (h : ℚ)) * 100) : ℚ) -
          ((w : ℚ) / (h : ℚ)) * 100) / 100 := by
      ring
    rw [hstep, abs_div]
    rw [show |(100 : ℚ)| = 100 by norm_num]
    linarith
  · show round2 ((10 : ℚ) / (10 : ℚ)) = 1
    norm_num [round2, roundHalfEven]
  · show round2 ((1 : ℚ) / (3 : ℚ)) ≠ (1 : ℚ) / 3
    norm_num [round2, roundHalfEven]

/-- Witness for C10 at the 10×10 image of the spec's end-to-end test. -/
theorem c10_aspect_ratio_witness :
    0 < 10 ∧ (process_image_dimensions 10 10).width = 10 ∧
      (process_image_dimensions 10 10).aspect_ratio = 1 :=
  ⟨by decide, (c10_aspect_ratio 10 10 (by decide)).1,
   (c10_aspect_ratio 10 10 (by decide)).2.2.2.2.1⟩

/-! ## C2: upload extension validation -/

theorem takeWhile_append_stop {p : Char → Bool} {xs : List Char}
    (hxs : ∀ x ∈ xs, p x = true) {y : Char} (hy : p y = false) (ys : List Char) :
    List.takeWhile p (xs ++ y :: ys) = xs := by
  induction xs with
  | nil => simp [List.takeWhile, hy]
  | cons x xs ih =>
    rw [List.cons_append, List.takeWhile_cons, hxs x (by simp)]
    rw [ih (fun a ha => hxs a (by simp [ha]))]
    simp

theorem dropWhile_head_false {p : Char → Bool} :
    ∀ {l : List Char} {c : Char} {cs : List Char},
      List.dropWhile p l = c :: cs → p c = false := by
  intro l
  induction l with
  | nil => intro c cs h; cases h
  | cons x xs ih =>
    intro c cs h
    rw [List.dropWhile_cons] at h
    by_cases hx : p x = true
    · rw [if_pos hx] at h; exact ih h
    · rw [if_neg hx] at h
      cases h
      exact Bool.eq_false_iff.mpr hx

/-- If `l` decomposes as `a ++ '.' :: b` with `b` dot-free, then the
substring after the last dot is exactly `b`. -/
theorem afterLast_of_decomp {l a b : List Char} (hl : l = a ++ '.' :: b)
    (hb : '.' ∉ b) : afterLast '.' l = b := by
  subst hl
  unfold afterLast
  rw [List.reverse_append, List.reverse_cons, List.append_assoc]
  rw [show (['.'] ++ a.reverse : List Char) = '.' :: a.reverse from rfl]
  rw [takeWhile_append_stop (fun x hx => by
      rw [List.mem_reverse] at hx
      simp only [ne_eq, decide_eq_true_eq]
      intro hxeq
      exact hb (hxeq ▸ hx)) (by simp) _]
  exact List.reverse_reverse b

theorem afterLast_append_sep (ys : List Char) :
    afterLast '.' (ys ++ ['.']) = [] := by
  unfold afterLast
  rw [List.reverse_append]
  simp

theorem afterLast_append_ne {y : Char} (hy : y ≠ '.') (ys : List Char) :
    afterLast '.' (ys ++ [y]) = afterLast '.' ys ++ [y] := by
  unfold afterLast
  rw [List.reverse_append]
  simp [List.takeWhile_cons, hy]

/-- Every list containing a dot decomposes around its last dot. -/
theorem exists_decomp_afterLast {l : List Char} (h : '.' ∈ l) :
    ∃ a, l = a ++ '.' :: afterLast '.' l ∧ '.' ∉ afterLast '.' l := by
  induction l using List.reverseRecOn with
  | nil => cases h
  | append_singleton ys y ih =>
    by_cases hy : y = '.'
    · subst hy
      rw [afterLast_append_sep]
      exact ⟨ys, rfl, by simp⟩
    · have hmem : '.' ∈ ys := by
        rcases List.mem_append.mp h with h1 | h2
        · exact h1
        · simp only [List.mem_singleton] at h2
          exact absurd h2.symm hy
      obtain ⟨a, hdec, hnd⟩ := ih hmem
      rw [afterLast_append_ne hy]
      refine ⟨a, ?_, ?_⟩
      · conv_lhs => rw [hdec]
        simp
      · intro hc
        rcases List.mem_append.mp hc with h1 | h2
        · exact hnd h1
        · simp only [List.mem_singleton] at h2
          exact hy h2.symm

/-- The specification-side predicate for C2: the filename contains a dot
and the substring after the last dot, lowercased, is a supported image
extension. -/
def specAllowedExt (f : String) : Prop :=
  ∃ a b : List Char, f.data = a ++ '.' :: b ∧ '.' ∉ b ∧
    ALLOWED_EXTENSIONS.contains (pyLower (String.mk b)) = true

/-- **C2.** `allowed_file` accepts exactly the filenames with a dot whose
lowercased last extension is in {png, jpg, jpeg, gif, bmp}; and the
analyze handler rejects a disallowed file with the invalid-file-type
envelope before saving anything (world unchanged, no reads, no calls). -/
theorem c2_allowed_file (file : UploadFile) (env : Env) (w : World) (cl : Nat)
    (hcl : cl ≤ MAX_CONTENT_LENGTH) :
    (allowed_file file.filename = true ↔ specAllowedExt file.filename) ∧
    (file.filename ≠ "" → allowed_file file.filename = false →
      analyze_image ⟨cl, some file⟩ env w =
        (errResp "Invalid file type. Please upload an image.", w, ⟨[], []⟩)) := by
  constructor
  · constructor
    · intro hall
      rw [allowed_file, Bool.and_eq_true] at hall
      have hdot : '.' ∈ file.filename.data := List.elem_iff.mp hall.1
      obtain ⟨a, hdec, hnd⟩ := exists_decomp_afterLast hdot
      exact ⟨a, afterLast '.' file.filename.data, hdec, hnd, hall.2⟩
    · rintro ⟨a, b, hdec, hnd, hext⟩
      rw [allowed_file, Bool.and_eq_true]
      constructor
      · rw [hdec]
        exact List.elem_iff.mpr (by simp)
      · rw [afterLast_of_decomp hdec hnd]
        exact hext
  · intro hfn hall
    rw [analyze_image, if_neg (Nat.not_lt.mpr hcl)]
    simp [hfn, hall]

/-- Witness for C2: `floor.PNG` is accepted, `notes.txt` is rejected
before any effect. -/
theorem c2_allowed_file_witness :
    (0 ≤ MAX_CONTENT_LENGTH ∧ ("notes.txt" : String) ≠ "" ∧
      allowed_file "notes.txt" = false) ∧
    (allowed_file "floor.PNG" = true ↔ specAllowedExt "floor.PNG") ∧
    analyze_image ⟨0, some ⟨"notes.txt", "bytes"⟩⟩ envW worldW =
      (errResp "Invalid file type. Please upload an image.", worldW, ⟨[], []⟩) :=
  ⟨⟨Nat.zero_le _, by decide, by decide⟩,
   (c2_allowed_file ⟨"floor.PNG", "bytes"⟩ envW worldW 0 (Nat.zero_le _)).1,
   (c2_allowed_file ⟨"notes.txt", "bytes"⟩ envW worldW 0 (Nat.zero_le _)).2
     (by decide) (by decide)⟩

/-! ## C4: path traversal in downloads -/

/-- Whether a character sequence begins with `./`. -/
def headIsDotSlash : List Char → Bool
  | c :: d :: _ => decide (c = '.') && decide (d = '/')
  | _ => false

/-- Whether a character sequence contains the traversal sequence `../`. -/
def hasTraversal : List Char → Bool
  | [] => false
  | c :: cs => (decide (c = '.') && headIsDotSlash cs) || hasTraversal cs

theorem hasTraversal_contains_slash :
    ∀ {l : List Char}, hasTraversal l = true → l.contains '/' = true := by
  intro l
  induction l with
  | nil => intro h; cases h
  | cons c cs ih =>
    intro h
    rw [hasTraversal, Bool.or_eq_true] at h
    rcases h with h1 | h2
    · rw [Bool.and_eq_true] at h1
      have hhd := h1.2
      match cs, hhd with
      | d :: e :: rest, hhd =>
        rw [headIsDotSlash, Bool.and_eq_true, decide_eq_true_eq,
          decide_eq_true_eq] at hhd
        rw [List.elem_iff]
        simp [hhd.2]
    · rw [List.elem_iff]
      exact List.mem_cons_of_mem c (List.elem_iff.mp (ih h2))

set_option maxHeartbeats 1000000 in
/-- **C4.** A GET request for `/download/<filename>` whose filename
contains the traversal sequence `../` cannot match the route (the path
converter does not accept `/` inside the segment), so the server answers
with the 404 `{'error': 'Endpoint not found', 'success': False}` envelope
and reads no file at all: nothing inside or outside the output directory
is touched. -/
theorem c4_download_traversal (fn : String) (env : Env) (w : World)
    (h : hasTraversal fn.data = true) :
    routeGet ("/download/".data ++ fn.data) env w = (not_found, w, ⟨[], []⟩) := by
  have hcontains : fn.data.contains '/' = true := hasTraversal_contains_slash h
  have hsplit : "/download/".data ++ fn.data =
      '/' :: 'd' :: 'o' :: 'w' :: 'n' :: 'l' :: 'o' :: 'a' :: 'd' :: '/' :: fn.data := rfl
  have h1 : ('/' :: 'd' :: 'o' :: 'w' :: 'n' :: 'l' :: 'o' :: 'a' :: 'd' :: '/' ::
      fn.data) ≠ "/".data := by
    intro he
    have hlen := congrArg List.length he
    rw [show "/".data = ['/'] from rfl] at hlen
    simp only [List.length_cons, List.length_nil] at hlen
    omega
  have h2 : ('/' :: 'd' :: 'o' :: 'w' :: 'n' :: 'l' :: 'o' :: 'a' :: 'd' :: '/' ::
      fn.data) ≠ "/test_api".data := by
    intro he
    have hlen := congrArg List.length he
    rw [show "/test_api".data =
      ['/', 't', 'e', 's', 't', '_', 'a', 'p', 'i'] from rfl] at hlen
    simp only [List.length_cons, List.length_nil] at hlen
    omega
  have h3 : ('/' :: 'd' :: 'o' :: 'w' :: 'n' :: 'l' :: 'o' :: 'a' :: 'd' :: '/' ::
      fn.data) ≠ "/history".data := by
    intro he
    have hlen := congrArg List.length he
    rw [show "/history".data =
      ['/', 'h', 'i', 's', 't', 'o', 'r', 'y'] from rfl] at hlen
    simp only [List.length_cons, List.length_nil] at hlen
    omega
  have h4 : ('/' :: 'd' :: 'o' :: 'w' :: 'n' :: 'l' :: 'o' :: 'a' :: 'd' :: '/' ::
      fn.data) ≠ "/health".data := by
    intro he
    have hlen := congrArg List.length he
    rw [show "/health".data =
      ['/', 'h', 'e', 'a', 'l', 't', 'h'] from rfl] at hlen
    simp only [List.length_cons, List.length_nil] at hlen
    omega
  rw [hsplit, routeGet, if_neg h1, if_neg h2, if_neg h3, if_neg h4]
  simp
  intro hne hns
  exact absurd (List.elem_iff.mp hcontains) hns

/-- Witness for C4 at the traversal filename `../secret`. -/
theorem c4_download_traversal_witness :
    hasTraversal ("../secret" : String).data = true ∧
    routeGet ("/download/".data ++ ("../secret" : String).data) envW worldW =
      (not_found, worldW, ⟨[], []⟩) :=
  ⟨by decide, c4_download_traversal "../secret" envW worldW (by decide)⟩

/-! ## Handler case analyses (shared by several claims) -/

/-- Exhaustive description of one `/analyze` request: the response is
always well-shaped (status 200, success payload or non-empty error
envelope), and the only possible output-directory change is one new entry
under the timestamp-derived name; the only possible upload-directory
change is one new entry. -/
theorem analyze_image_spec (req : AnalyzeRequest) (env : Env) (w : World) :
    envOk (analyze_image req env w).1 ∧
    ((analyze_image req env w).2.1.outputs = w.outputs ∨
      ∃ b, (analyze_image req env w).2.1.outputs =
        ("analysis_" ++ env.now ++ ".json", b) :: w.outputs) ∧
    ((analyze_image req env w).2.1.uploads = w.uploads ∨
      ∃ nm c, (analyze_image req env w).2.1.uploads = (nm, c) :: w.uploads) := by
  obtain ⟨cl, fi⟩ := req
  by_cases hcl : cl > MAX_CONTENT_LENGTH
  · have he : analyze_image ⟨cl, fi⟩ env w =
        (errResp ("Error processing image: " ++ reqTooLargeMsg), w, ⟨[], []⟩) := by
      rw [analyze_image, if_pos hcl]
    rw [he]
    exact ⟨envOk_errResp (append_ne_empty (by decide) _), Or.inl rfl, Or.inl rfl⟩
  · cases fi with
    | none =>
      have he : analyze_image ⟨cl, none⟩ env w =
          (errResp "No image uploaded", w, ⟨[], []⟩) := by
        rw [analyze_image, if_neg hcl]
      rw [he]
      exact ⟨envOk_errResp (by decide), Or.inl rfl, Or.inl rfl⟩
    | some file =>
      by_cases hfn : file.filename = ""
      · have he : analyze_image ⟨cl, some file⟩ env w =
            (errResp "No file selected", w, ⟨[], []⟩) := by
          rw [analyze_image, if_neg hcl]
          simp [hfn]
        rw [he]
        exact ⟨envOk_errResp (by decide), Or.inl rfl, Or.inl rfl⟩
      by_cases hall : allowed_file file.filename = true
      case neg =>
        have hall' : allowed_file file.filename = false := by
          simpa using hall
        have he : analyze_image ⟨cl, some file⟩ env w =
            (errResp "Invalid file type. Please upload an image.", w, ⟨[], []⟩) := by
          rw [analyze_image, if_neg hcl]
          simp [hfn, hall']
        rw [he]
        exact ⟨envOk_errResp (by decide), Or.inl rfl, Or.inl rfl⟩
      case pos =>
      cases hsave : env.saveUpload with
      | error e =>
        have he : analyze_image ⟨cl, some file⟩ env w =
            (errResp ("Error processing image: " ++ e), w, ⟨[], []⟩) := by
          rw [analyze_image, if_neg hcl]
          simp [hfn, hall, hsave]
        rw [he]
        exact ⟨envOk_errResp (append_ne_empty (by decide) _), Or.inl rfl, Or.inl rfl⟩
      | ok u =>
        cases himg : env.openImage with
        | error e =>
          have he : analyze_image ⟨cl, some file⟩ env w =
              (errResp ("Error processing image: " ++ e),
               { w with uploads :=
                  (env.now ++ "_" ++ secure_filename file.filename, file.content)
                    :: w.uploads },
               ⟨[], ["uploads/" ++ (env.now ++ "_" ++ secure_filename file.filename)]⟩) := by
            rw [analyze_image, if_neg hcl]
            simp [hfn, hall, hsave, himg]
          rw [he]
          exact ⟨envOk_errResp (append_ne_empty (by decide) _), Or.inl rfl,
            Or.inr ⟨_, _, rfl⟩⟩
        | ok wh =>
          cases hgen : env.genAnalyze with
          | error e =>
            have he : analyze_image ⟨cl, some file⟩ env w =
                (errResp ("Error processing image: " ++ e),
                 { w with uploads :=
                    (env.now ++ "_" ++ secure_filename file.filename, file.content)
                      :: w.uploads },
                 ⟨[analysisPrompt],
                  ["uploads/" ++ (env.now ++ "_" ++ secure_filename file.filename)]⟩) := by
              rw [analyze_image, if_neg hcl]
              simp [hfn, hall, hsave, himg, hgen]
            rw [he]
            exact ⟨envOk_errResp (append_ne_empty (by decide) _), Or.inl rfl,
              Or.inr ⟨_, _, rfl⟩⟩
          | ok text =>
            by_cases htext : text = ""
            · have he : analyze_image ⟨cl, some file⟩ env w =
                  (errResp "No response from AI model",
                   { w with uploads :=
                      (env.now ++ "_" ++ secure_filename file.filename, file.content)
                        :: w.uploads },
                   ⟨[analysisPrompt],
                    ["uploads/" ++ (env.now ++ "_" ++ secure_filename file.filename)]⟩) := by
                rw [analyze_image, if_neg hcl]
                simp [hfn, hall, hsave, himg, hgen, htext]
              rw [he]
              exact ⟨envOk_errResp (by decide), Or.inl rfl, Or.inr ⟨_, _, rfl⟩⟩
            cases hwr : env.writeAnalysis with
            | error e =>
              have he : analyze_image ⟨cl, some file⟩ env w =
                  (errResp ("Error processing image: " ++ e),
                   { w with uploads :=
                      (env.now ++ "_" ++ secure_filename file.filename, file.content)
                        :: w.uploads },
                   ⟨[analysisPrompt],
                    ["uploads/" ++ (env.now ++ "_" ++ secure_filename file.filename)]⟩) := by
                rw [analyze_image, if_neg hcl]
                simp [hfn, hall, hsave, himg, hgen, htext, hwr]
              rw [he]
              exact ⟨envOk_errResp (append_ne_empty (by decide) _), Or.inl rfl,
                Or.inr ⟨_, _, rfl⟩⟩
            | ok u2 =>
              have he : analyze_image ⟨cl, some file⟩ env w =
                  (⟨.jsonB (analysisRecordJson env.now
                      (env.now ++ "_" ++ secure_filename file.filename)
                      (process_image_dimensions wh.1 wh.2) text), 200⟩,
                   { uploads :=
                      (env.now ++ "_" ++ secure_filename file.filename, file.content)
                        :: w.uploads,
                     outputs := ("analysis_" ++ env.now ++ ".json",
                      jdump (analysisRecordJson env.now
                        (env.now ++ "_" ++ secure_filename file.filename)
                        (process_image_dimensions wh.1 wh.2) text)) :: w.outputs },
                   ⟨[analysisPrompt],
                    ["uploads/" ++ (env.now ++ "_" ++ secure_filename file.filename)]⟩) := by
                rw [analyze_image, if_neg hcl]
                simp [hfn, hall, hsave, himg, hgen, htext, hwr]
              rw [he]
              exact ⟨⟨rfl, Or.inl rfl⟩, Or.inr ⟨_, rfl⟩, Or.inr ⟨_, _, rfl⟩⟩

/-- Exhaustive description of one `/generate_plan` request: the response
is always well-shaped, and the only possible output-directory change is
one new entry under the timestamp-derived name; uploads never change. -/
theorem generate_plan_spec (req : PlanRequest) (env : Env) (w : World) :
    envOk (generate_plan req env w).1 ∧
    ((generate_plan req env w).2.1.outputs = w.outputs ∨
      ∃ b, (generate_plan req env w).2.1.outputs =
        ("plan_" ++ env.now ++ ".json", b) :: w.outputs) ∧
    (generate_plan req env w).2.1.uploads = w.uploads := by
  obtain ⟨cl, body⟩ := req
  by_cases hcl : cl > MAX_CONTENT_LENGTH
  · have he : generate_plan ⟨cl, body⟩ env w =
        (errResp ("Error generating plan: " ++ reqTooLargeMsg), w, ⟨[], []⟩) := by
      rw [generate_plan, if_pos hcl]
    rw [he]
    exact ⟨envOk_errResp (append_ne_empty (by decide) _), Or.inl rfl, rfl⟩
  · cases body with
    | none =>
      have he : generate_plan ⟨cl, none⟩ env w =
          (errResp ("Error generating plan: " ++ badRequestMsg), w, ⟨[], []⟩) := by
        rw [generate_plan, if_neg hcl]
      rw [he]
      exact ⟨envOk_errResp (append_ne_empty (by decide) _), Or.inl rfl, rfl⟩
    | some j =>
      cases j with
      | jobj fields =>
        by_cases hreq : pyTruthy ((lookupF fields "requirements").getD (.jstr "")) = true
        case neg =>
          have hreq' : pyTruthy ((lookupF fields "requirements").getD (.jstr "")) = false := by
            simpa using hreq
          have he : generate_plan ⟨cl, some (.jobj fields)⟩ env w =
              (errResp "No requirements provided", w, ⟨[], []⟩) := by
            rw [generate_plan, if_neg hcl]
            simp [hreq']
          rw [he]
          exact ⟨envOk_errResp (by decide), Or.inl rfl, rfl⟩
        case pos =>
        cases hgen : env.genPlan with
        | error e =>
          have he : generate_plan ⟨cl, some (.jobj fields)⟩ env w =
              (errResp ("Error generating plan: " ++ e), w,
               ⟨[planPrompt (pyStr ((lookupF fields "requirements").getD (.jstr "")))],
                []⟩) := by
            rw [generate_plan, if_neg hcl]
            simp [hreq, hgen]
          rw [he]
          exact ⟨envOk_errResp (append_ne_empty (by decide) _), Or.inl rfl, rfl⟩
        | ok text =>
          by_cases htext : text = ""
          · have he : generate_plan ⟨cl, some (.jobj fields)⟩ env w =
                (errResp "No response from AI model", w,
                 ⟨[planPrompt (pyStr ((lookupF fields "requirements").getD (.jstr "")))],
                  []⟩) := by
              rw [generate_plan, if_neg hcl]
              simp [hreq, hgen, htext]
            rw [he]
            exact ⟨envOk_errResp (by decide), Or.inl rfl, rfl⟩
          cases hwr : env.writePlan with
          | error e =>
            have he : generate_plan ⟨cl, some (.jobj fields)⟩ env w =
                (errResp ("Error generating plan: " ++ e), w,
                 ⟨[planPrompt (pyStr ((lookupF fields "requirements").getD (.jstr "")))],
                  []⟩) := by
              rw [generate_plan, if_neg hcl]
              simp [hreq, hgen, htext, hwr]
            rw [he]
            exact ⟨envOk_errResp (append_ne_empty (by decide) _), Or.inl rfl, rfl⟩
          | ok u =>
            have he : generate_plan ⟨cl, some (.jobj fields)⟩ env w =
                (⟨.jsonB (planRecordJson env.now
                    ((lookupF fields "requirements").getD (.jstr "")) text), 200⟩,
                 { w with outputs := ("plan_" ++ env.now ++ ".json",
                    jdump (planRecordJson env.now
                      ((lookupF fields "requirements").getD (.jstr "")) text))
                      :: w.outputs },
                 ⟨[planPrompt (pyStr ((lookupF fields "requirements").getD (.jstr "")))],
                  []⟩) := by
              rw [generate_plan, if_neg hcl]
              simp [hreq, hgen, htext, hwr]
            rw [he]
            exact ⟨⟨rfl, Or.inl rfl⟩, Or.inr ⟨_, rfl⟩, rfl⟩
      | jbool b =>
        have he : generate_plan ⟨cl, some (.jbool b)⟩ env w =
            (errResp ("Error generating plan: " ++ attrGetMsg), w, ⟨[], []⟩) := by
          rw [generate_plan, if_neg hcl]
        rw [he]
        exact ⟨envOk_errResp (append_ne_empty (by decide) _), Or.inl rfl, rfl⟩
      | jint n =>
        have he : generate_plan ⟨cl, some (.jint n)⟩ env w =
            (errResp ("Error generating plan: " ++ attrGetMsg), w, ⟨[], []⟩) := by
          rw [generate_plan, if_neg hcl]
        rw [he]
        exact ⟨envOk_errResp (append_ne_empty (by decide) _), Or.inl rfl, rfl⟩
      | jdec ip f fd =>
        have he : generate_plan ⟨cl, some (.jdec ip f fd)⟩ env w =
            (errResp ("Error generating plan: " ++ attrGetMsg), w, ⟨[], []⟩) := by
          rw [generate_plan, if_neg hcl]
        rw [he]
        exact ⟨envOk_errResp (append_ne_empty (by decide) _), Or.inl rfl, rfl⟩
      | jstr s =>
        have he : generate_plan ⟨cl, some (.jstr s)⟩ env w =
            (errResp ("Error generating plan: " ++ attrGetMsg), w, ⟨[], []⟩) := by
          rw [generate_plan, if_neg hcl]
        rw [he]
        exact ⟨envOk_errResp (append_ne_empty (by decide) _), Or.inl rfl, rfl⟩

/-- **C6.** Every `/analyze` and `/generate_plan` request — whatever
fails inside the handler (missing input, storage error, provider error,
empty model response, oversized body) — is answered with HTTP 200 and a
well-formed JSON body: either the success payload or
`{success: false, error: <non-empty message>}`; the handler's catch-all
`except` ensures no exception escapes. -/
theorem c6_failure_envelope :
    (∀ req env w, envOk (analyze_image req env w).1) ∧
    (∀ req env w, envOk (generate_plan req env w).1) :=
  ⟨fun req env w => (analyze_image_spec req env w).1,
   fun req env w => (generate_plan_spec req env w).1⟩

/-! ## C9: append-only record store -/

/-- A serialized object document always starts with an opening brace. -/
theorem jdump_obj_head (ms : List (String × JVal)) :
    ∃ rest, (jdump (.jobj ms)).data = '\x7b' :: rest := by
  cases ms with
  | nil => exact ⟨['\x7d'], by rw [jdump, jdumpV]⟩
  | cons m ms => exact ⟨_, by rw [jdump, jdumpV]⟩

/-- A serialized object document never equals a string that does not
start with an opening brace. -/
theorem jdump_obj_ne {ms : List (String × JVal)} {s : String}
    (h : ∀ rest, s.data ≠ '\x7b' :: rest) : jdump (.jobj ms) ≠ s := by
  obtain ⟨rest, hr⟩ := jdump_obj_head ms
  intro he
  exact h rest (by rw [← he]; exact hr)

theorem planRecordJson_obj (ts : String) (req : JVal) (text : String) :
    ∃ fs, planRecordJson ts req text = .jobj fs := ⟨_, rfl⟩

theorem lookupA_cons_ne {fs : List (String × String)} {k key v : String}
    (h : key ≠ k) : lookupA ((k, v) :: fs) key = lookupA fs key := by
  rw [lookupA, if_neg (fun he => h he.symm)]

/-- An output directory that already holds a plan record whose name was
derived from the timestamp `20250101_120000`. -/
def worldNine : World := ⟨[], [("plan_20250101_120000.json", "OLD")]⟩

/-- **C9, counterexample.** The store is not append-only: a
`/generate_plan` request completing in the same second as an earlier one
reuses the earlier record's name `plan_20250101_120000.json` and
overwrites its content (the stored bytes under that name change). -/
theorem c9_counterexample :
    lookupA worldNine.outputs "plan_20250101_120000.json" = some "OLD" ∧
    lookupA (generate_plan ⟨100, some (.jobj [("requirements", .jstr "house")])⟩
        envW worldNine).2.1.outputs "plan_20250101_120000.json" ≠ some "OLD" := by
  refine ⟨rfl, ?_⟩
  have he : generate_plan ⟨100, some (.jobj [("requirements", .jstr "house")])⟩
      envW worldNine =
      (⟨.jsonB (planRecordJson "20250101_120000" (.jstr "house") "PLAN"), 200⟩,
       ⟨[], ("plan_20250101_120000.json",
          jdump (planRecordJson "20250101_120000" (.jstr "house") "PLAN"))
            :: worldNine.outputs⟩,
       ⟨[planPrompt "house"], []⟩) := rfl
  rw [he]
  have hlk : lookupA (("plan_20250101_120000.json",
      jdump (planRecordJson "20250101_120000" (.jstr "house") "PLAN"))
        :: worldNine.outputs) "plan_20250101_120000.json" =
      some (jdump (planRecordJson "20250101_120000" (.jstr "house") "PLAN")) := by
    rw [lookupA, if_pos rfl]
  rw [hlk]
  intro hcontra
  obtain ⟨fs, hfs⟩ := planRecordJson_obj "20250101_120000" (.jstr "house") "PLAN"
  have hne : jdump (planRecordJson "20250101_120000" (.jstr "house") "PLAN") ≠ "OLD" := by
    rw [hfs]
    refine jdump_obj_ne (fun rest h => ?_)
    rw [show ("OLD").data = ['O', 'L', 'D'] from rfl] at h
    injection h with h1 h2
    exact absurd h1 (by decide)
  exact hne (Option.some.injEq _ _ ▸ hcontra)

set_option maxHeartbeats 2000000 in
/-- **C9, amended.** The read-only routes (`/`, `/test_api`, `/history`,
`/health`, `/download/...`, and unmatched paths) never change the
filesystem at all; `/analyze` and `/generate_plan` change the output
directory by at most one new entry whose name is derived from the current
timestamp, and leave the content stored under every *other* name
untouched.  (Append-only is guaranteed only while no two writes share a
timestamp second — otherwise the counterexample applies.) -/
theorem c9_append_only :
    (∀ path env w, (routeGet path env w).2.1 = w) ∧
    (∀ req env w, (analyze_image req env w).2.1.outputs = w.outputs ∨
      ∃ b, (analyze_image req env w).2.1.outputs =
        ("analysis_" ++ env.now ++ ".json", b) :: w.outputs) ∧
    (∀ req env w, (generate_plan req env w).2.1.outputs = w.outputs ∨
      ∃ b, (generate_plan req env w).2.1.outputs =
        ("plan_" ++ env.now ++ ".json", b) :: w.outputs) ∧
    (∀ req env w name, name ≠ "analysis_" ++ env.now ++ ".json" →
      lookupA (analyze_image req env w).2.1.outputs name = lookupA w.outputs name) ∧
    (∀ req env w name, name ≠ "plan_" ++ env.now ++ ".json" →
      lookupA (generate_plan req env w).2.1.outputs name = lookupA w.outputs name) := by
  refine ⟨?_, fun req env w => (analyze_image_spec req env w).2.1,
    fun req env w => (generate_plan_spec req env w).2.1, ?_, ?_⟩
  · intro path env w
    rw [routeGet.eq_def]
    split_ifs
    any_goals rfl
    split
    · split <;> rfl
    · rfl
  · intro req env w name hne
    rcases (analyze_image_spec req env w).2.1 with h | ⟨b, h⟩
    · rw [h]
    · rw [h, lookupA_cons_ne hne]
  · intro req env w name hne
    rcases (generate_plan_spec req env w).2.1 with h | ⟨b, h⟩
    · rw [h]
    · rw [h, lookupA_cons_ne hne]

/-- Witness for C9 at concrete inputs: a `/history` request leaves the
world unchanged, and a rejected analyze/plan request leaves the content
stored under an unrelated name unchanged. -/
theorem c9_append_only_witness :
    (routeGet "/history".data envW worldNine).2.1 = worldNine ∧
    ("other.json" ≠ "analysis_" ++ envW.now ++ ".json" ∧
      lookupA (analyze_image ⟨100, none⟩ envW worldNine).2.1.outputs "other.json" =
        lookupA worldNine.outputs "other.json") ∧
    ("other.json" ≠ "plan_" ++ envW.now ++ ".json" ∧
      lookupA (generate_plan ⟨100, none⟩ envW worldNine).2.1.outputs "other.json" =
        lookupA worldNine.outputs "other.json") :=
  ⟨c9_append_only.1 "/history".data envW worldNine,
   ⟨by decide,
    c9_append_only.2.2.2.1 ⟨100, none⟩ envW worldNine "other.json" (by decide)⟩,
   ⟨by decide,
    c9_append_only.2.2.2.2 ⟨100, none⟩ envW worldNine "other.json" (by decide)⟩⟩

/-! ## C8: over-limit bodies -/

/-- **C8, counterexample.** An `/analyze` request whose body exceeds the
16 MiB limit is answered with HTTP 200 — not 413 — because the
`RequestEntityTooLarge` exception raises inside the handler (when
`request.files` is first touched) and is caught by the handler's blanket
`except`: the handler *is* invoked, and its catch-all envelope (not the
registered 413 handler's) forms the response. -/
theorem c8_counterexample :
    analyze_image ⟨MAX_CONTENT_LENGTH + 1, none⟩ envW worldW =
      (errResp ("Error processing image: " ++ reqTooLargeMsg), worldW, ⟨[], []⟩) ∧
    (analyze_image ⟨MAX_CONTENT_LENGTH + 1, none⟩ envW worldW).1.status = 200 ∧
    (200 : Nat) ≠ 413 :=
  ⟨rfl, rfl, by decide⟩

/-- **C8, amended.** An over-limit body sent to `/analyze` or
`/generate_plan` yields the handler's own catch-all envelope — status
200, `success: false`, error message built from the
`RequestEntityTooLarge` exception text — with the filesystem unchanged
and no gateway call or file read; the registered 413 handler `too_large`
does return the documented `\x7berror, success: false\x7d` envelope with
status 413, but these routes never reach it. -/
theorem c8_oversize (cl : Nat) (h : cl > MAX_CONTENT_LENGTH) (env : Env)
    (w : World) (fi : Option UploadFile) (body : Option JVal) :
    analyze_image ⟨cl, fi⟩ env w =
      (errResp ("Error processing image: " ++ reqTooLargeMsg), w, ⟨[], []⟩) ∧
    generate_plan ⟨cl, body⟩ env w =
      (errResp ("Error generating plan: " ++ reqTooLargeMsg), w, ⟨[], []⟩) ∧
    (analyze_image ⟨cl, fi⟩ env w).1.status = 200 ∧
    (generate_plan ⟨cl, body⟩ env w).1.status = 200 ∧
    too_large.status = 413 ∧
    bodyError too_large.body = some "File too large. Maximum size is 16MB." ∧
    bodySuccess too_large.body = some false := by
  have h1 : analyze_image ⟨cl, fi⟩ env w =
      (errResp ("Error processing image: " ++ reqTooLargeMsg), w, ⟨[], []⟩) := by
    rw [analyze_image, if_pos h]
  have h2 : generate_plan ⟨cl, body⟩ env w =
      (errResp ("Error generating plan: " ++ reqTooLargeMsg), w, ⟨[], []⟩) := by
    rw [generate_plan, if_pos h]
  exact ⟨h1, h2, by rw [h1]; rfl, by rw [h2]; rfl, rfl, rfl, rfl⟩

/-- Witness for C8 at a body one byte over the limit. -/
theorem c8_oversize_witness :
    MAX_CONTENT_LENGTH + 1 > MAX_CONTENT_LENGTH ∧
    (analyze_image ⟨MAX_CONTENT_LENGTH + 1, some ⟨"a.png", "x"⟩⟩ envW worldW =
        (errResp ("Error processing image: " ++ reqTooLargeMsg), worldW, ⟨[], []⟩) ∧
      generate_plan ⟨MAX_CONTENT_LENGTH + 1, some (.jobj [])⟩ envW worldW =
        (errResp ("Error generating plan: " ++ reqTooLargeMsg), worldW, ⟨[], []⟩) ∧
      (analyze_image ⟨MAX_CONTENT_LENGTH + 1, some ⟨"a.png", "x"⟩⟩ envW worldW).1.status = 200 ∧
      (generate_plan ⟨MAX_CONTENT_LENGTH + 1, some (.jobj [])⟩ envW worldW).1.status = 200 ∧
      too_large.status = 413 ∧
      bodyError too_large.body = some "File too large. Maximum size is 16MB." ∧
      bodySuccess too_large.body = some false) :=
  ⟨Nat.lt_succ_self MAX_CONTENT_LENGTH,
   c8_oversize (MAX_CONTENT_LENGTH + 1) (Nat.lt_succ_self MAX_CONTENT_LENGTH)
     envW worldW (some ⟨"a.png", "x"⟩) (some (.jobj []))⟩

/-! ## C7: one timestamp couples upload name, record name and record field -/

/-- The `timestamp` field of a persisted record object. -/
def recordTimestamp : JVal → Option JVal
  | .jobj fs => lookupF fs "timestamp"
  | _ => none

/-- **C7.** On the success path of `/analyze`, the single timestamp
string drawn at upload time (`env.now`, Python's
`datetime.now().strftime("%Y%m%d_%H%M%S")`) is simultaneously: the
prefix of the stored upload's name `<now>_<secure name>`, the value of
the persisted record's `timestamp` field, and the `<timestamp>` part of
the record file name `analysis_<now>.json`. -/
theorem c7_timestamp_coupling (cl : Nat) (file : UploadFile) (env : Env)
    (w : World) (wh : Nat × Nat) (text : String)
    (hcl : cl ≤ MAX_CONTENT_LENGTH) (hfn : file.filename ≠ "")
    (hall : allowed_file file.filename = true)
    (hsave : env.saveUpload = .ok ()) (himg : env.openImage = .ok wh)
    (hgen : env.genAnalyze = .ok text) (hne : text ≠ "")
    (hwr : env.writeAnalysis = .ok ()) :
    analyze_image ⟨cl, some file⟩ env w =
      (⟨.jsonB (analysisRecordJson env.now
          (env.now ++ "_" ++ secure_filename file.filename)
          (process_image_dimensions wh.1 wh.2) text), 200⟩,
       ⟨(env.now ++ "_" ++ secure_filename file.filename, file.content) :: w.uploads,
        ("analysis_" ++ env.now ++ ".json",
          jdump (analysisRecordJson env.now
            (env.now ++ "_" ++ secure_filename file.filename)
            (process_image_dimensions wh.1 wh.2) text)) :: w.outputs⟩,
       ⟨[analysisPrompt],
        ["uploads/" ++ (env.now ++ "_" ++ secure_filename file.filename)]⟩) ∧
    recordTimestamp (analysisRecordJson env.now
        (env.now ++ "_" ++ secure_filename file.filename)
        (process_image_dimensions wh.1 wh.2) text) = some (.jstr env.now) ∧
    (∃ s, env.now ++ "_" ++ secure_filename file.filename = env.now ++ s) := by
  refine ⟨?_, rfl, "_" ++ secure_filename file.filename, String.append_assoc _ _ _⟩
  rw [analyze_image, if_neg (Nat.not_lt.mpr hcl)]
  simp [hfn, hall, hsave, himg, hgen, hne, hwr]

/-- Witness for C7 at a concrete successful request. -/
theorem c7_timestamp_coupling_witness :
    (100 ≤ MAX_CONTENT_LENGTH ∧ ("plan.png" : String) ≠ "" ∧
      allowed_file "plan.png" = true ∧ envW.saveUpload = .ok () ∧
      envW.openImage = .ok (10, 10) ∧ envW.genAnalyze = .ok "ROOM: 100sqft" ∧
      ("ROOM: 100sqft" : String) ≠ "" ∧ envW.writeAnalysis = .ok ()) ∧
    (analyze_image ⟨100, some ⟨"plan.png", "BYTES"⟩⟩ envW worldW =
      (⟨.jsonB (analysisRecordJson envW.now
          (envW.now ++ "_" ++ secure_filename ("plan.png" : String))
          (process_image_dimensions (10, 10).1 (10, 10).2) "ROOM: 100sqft"), 200⟩,
       ⟨(envW.now ++ "_" ++ secure_filename ("plan.png" : String), "BYTES")
          :: worldW.uploads,
        ("analysis_" ++ envW.now ++ ".json",
          jdump (analysisRecordJson envW.now
            (envW.now ++ "_" ++ secure_filename ("plan.png" : String))
            (process_image_dimensions (10, 10).1 (10, 10).2) "ROOM: 100sqft"))
          :: worldW.outputs⟩,
       ⟨[analysisPrompt],
        ["uploads/" ++ (envW.now ++ "_" ++ secure_filename ("plan.png" : String))]⟩) ∧
    recordTimestamp (analysisRecordJson envW.now
        (envW.now ++ "_" ++ secure_filename ("plan.png" : String))
        (process_image_dimensions (10, 10).1 (10, 10).2) "ROOM: 100sqft") =
      some (.jstr envW.now) ∧
    (∃ s, envW.now ++ "_" ++ secure_filename ("plan.png" : String) = envW.now ++ s)) :=
  ⟨⟨by decide, by decide, by decide, rfl, rfl, rfl, by decide, rfl⟩,
   c7_timestamp_coupling 100 ⟨"plan.png", "BYTES"⟩ envW worldW (10, 10)
     "ROOM: 100sqft" (by decide) (by decide) (by decide) rfl rfl rfl
     (by decide) rfl⟩

/-! ## C5: persistence round trip -/

/-- The decimal literal written for a float `n/100` is well-formed. -/
theorem wfJ_jdecOfHundredths (n : Nat) : wfJ (jdecOfHundredths n) = true := by
  rw [jdecOfHundredths]
  split_ifs with h1 h2 <;> simp [wfJ] <;> omega

theorem wfJ_jstr (s : String) : wfJ (.jstr s) = true := by simp [wfJ]

/-- Analysis records serialize within the round-trip fragment. -/
theorem wfJ_analysisRecord (ts fname : String) (info : ImageInfo) (text : String) :
    wfJ (analysisRecordJson ts fname info text) = true := by
  simp [analysisRecordJson, imageInfoJson, wfJ, wfFs, wfJ_jdecOfHundredths]

/-- Plan records serialize within the round-trip fragment whenever the
client's `requirements` value does. -/
theorem wfJ_planRecord (ts : String) (req : JVal) (text : String)
    (hreq : wfJ req = true) : wfJ (planRecordJson ts req text) = true := by
  simp [planRecordJson, wfJ, wfFs, hreq]

/-- A slash-free character sequence is a single path segment. -/
theorem segsOf_no_slash (cs : List Char) (h : '/' ∉ cs) : segsOf cs = [cs] := by
  induction cs with
  | nil => rfl
  | cons c cs ih =>
    have h1 : '/' ∉ cs := fun hm => h (List.mem_cons_of_mem _ hm)
    have h2 : ¬(c = '/') := fun he => h (he ▸ List.mem_cons_self _ _)
    rw [segsOf, ih h1]
    simp [h2]

/-- `safe_join` accepts any slash-free name whose head is not a dot. -/
theorem safe_join_ok_cons {fn : String} {c : Char} {r : List Char}
    (hcons : fn.data = c :: r) (hc : c ≠ '.') (hcs : c ≠ '/') (hs : '/' ∉ r) :
    safe_join_ok fn = true := by
  have hns : '/' ∉ fn.data := by
    rw [hcons]
    intro hm
    rcases List.mem_cons.mp hm with h | h
    · exact hcs h.symm
    · exact hs h
  rw [safe_join_ok, segsOf_no_slash _ hns, hcons]
  simp only [List.all_cons, List.all_nil, Bool.and_true, Bool.and_eq_true,
    decide_eq_true_eq]
  refine ⟨⟨by simp, fun he => ?_⟩, fun he => ?_⟩
  · injection he with he1 _
    exact hc he1
  · injection he with he1 _
    exact hc he1

/-- `str.endswith` holds for any appended suffix. -/
theorem pyEndsWith_append (s t : String) : pyEndsWith (s ++ t) t = true := by
  rw [pyEndsWith, String.data_append, List.isSuffixOf_iff_suffix]
  exact List.suffix_append s.data t.data

/-- **C5.** A record persisted by the analyze or plan pipeline round
trips: `GET /download/<name>` on the stored name returns exactly the
stored bytes (status 200, one read of `outputs/<name>`), and the history
scanner re-parses those bytes to an entry carrying the same timestamp
and the correct kind tag (`analysis` for analysis records, `plan` for
plan records). -/
theorem c5_round_trip (ts fname text : String) (info : ImageInfo) (req : JVal)
    (outs : List (String × String)) (hts : '/' ∉ ts.data)
    (hreq : wfJ req = true) :
    (download_file ("analysis_" ++ ts ++ ".json")
        (("analysis_" ++ ts ++ ".json",
          jdump (analysisRecordJson ts fname info text)) :: outs) =
      (⟨.fileB (jdump (analysisRecordJson ts fname info text)), 200⟩,
       ⟨[], ["outputs/" ++ ("analysis_" ++ ts ++ ".json")]⟩) ∧
     historyEntry ("analysis_" ++ ts ++ ".json")
        (jdump (analysisRecordJson ts fname info text)) =
      some ⟨"analysis_" ++ ts ++ ".json", .jstr ts, "analysis"⟩) ∧
    (download_file ("plan_" ++ ts ++ ".json")
        (("plan_" ++ ts ++ ".json", jdump (planRecordJson ts req text)) :: outs) =
      (⟨.fileB (jdump (planRecordJson ts req text)), 200⟩,
       ⟨[], ["outputs/" ++ ("plan_" ++ ts ++ ".json")]⟩) ∧
     historyEntry ("plan_" ++ ts ++ ".json") (jdump (planRecordJson ts req text)) =
      some ⟨"plan_" ++ ts ++ ".json", .jstr ts, "plan"⟩) := by
  have hA : ("analysis_" ++ ts ++ ".json").data =
      'a' :: (("nalysis_".data ++ ts.data) ++ ".json".data) := by
    rw [String.data_append, String.data_append]
    rfl
  have hP : ("plan_" ++ ts ++ ".json").data =
      'p' :: (("lan_".data ++ ts.data) ++ ".json".data) := by
    rw [String.data_append, String.data_append]
    rfl
  have hsA : '/' ∉ ("nalysis_".data ++ ts.data) ++ ".json".data := by
    intro hm
    rcases List.mem_append.mp hm with hm | hm
    · rcases List.mem_append.mp hm with hm | hm
      · exact absurd hm (by decide)
      · exact hts hm
    · exact absurd hm (by decide)
  have hsP : '/' ∉ ("lan_".data ++ ts.data) ++ ".json".data := by
    intro hm
    rcases List.mem_append.mp hm with hm | hm
    · rcases List.mem_append.mp hm with hm | hm
      · exact absurd hm (by decide)
      · exact hts hm
    · exact absurd hm (by decide)
  have hsjA : safe_join_ok ("analysis_" ++ ts ++ ".json") = true :=
    safe_join_ok_cons hA (by decide) (by decide) hsA
  have hsjP : safe_join_ok ("plan_" ++ ts ++ ".json") = true :=
    safe_join_ok_cons hP (by decide) (by decide) hsP
  have hendA : pyEndsWith ("analysis_" ++ ts ++ ".json") ".json" = true :=
    pyEndsWith_append ("analysis_" ++ ts) ".json"
  have hendP : pyEndsWith ("plan_" ++ ts ++ ".json") ".json" = true :=
    pyEndsWith_append ("plan_" ++ ts) ".json"
  have hldA : jload (jdump (analysisRecordJson ts fname info text)) =
      some (analysisRecordJson ts fname info text) :=
    jload_jdump _ (wfJ_analysisRecord ts fname info text)
  have hldP : jload (jdump (planRecordJson ts req text)) =
      some (planRecordJson ts req text) :=
    jload_jdump _ (wfJ_planRecord ts req text hreq)
  refine ⟨⟨?_, ?_⟩, ?_, ?_⟩
  · rw [download_file, send_from_directory, if_pos hsjA, lookupA, if_pos rfl]
  · rw [historyEntry, if_pos hendA, hldA]
    rfl
  · rw [download_file, send_from_directory, if_pos hsjP, lookupA, if_pos rfl]
  · rw [historyEntry, if_pos hendP, hldP]
    rfl

/-- Witness for C5 at a concrete timestamp and record contents. -/
theorem c5_round_trip_witness :
    ('/' ∉ ("20250101_120000" : String).data ∧ wfJ (.jstr "house") = true) ∧
    ((download_file ("analysis_" ++ "20250101_120000" ++ ".json")
        (("analysis_" ++ "20250101_120000" ++ ".json",
          jdump (analysisRecordJson "20250101_120000" "x.png" ⟨10, 10, 1⟩ "A")) :: []) =
      (⟨.fileB (jdump (analysisRecordJson "20250101_120000" "x.png" ⟨10, 10, 1⟩ "A")), 200⟩,
       ⟨[], ["outputs/" ++ ("analysis_" ++ "20250101_120000" ++ ".json")]⟩) ∧
     historyEntry ("analysis_" ++ "20250101_120000" ++ ".json")
        (jdump (analysisRecordJson "20250101_120000" "x.png" ⟨10, 10, 1⟩ "A")) =
      some ⟨"analysis_" ++ "20250101_120000" ++ ".json", .jstr "20250101_120000",
        "analysis"⟩) ∧
    (download_file ("plan_" ++ "20250101_120000" ++ ".json")
        (("plan_" ++ "20250101_120000" ++ ".json",
          jdump (planRecordJson "20250101_120000" (.jstr "house") "A")) :: []) =
      (⟨.fileB (jdump (planRecordJson "20250101_120000" (.jstr "house") "A")), 200⟩,
       ⟨[], ["outputs/" ++ ("plan_" ++ "20250101_120000" ++ ".json")]⟩) ∧
     historyEntry ("plan_" ++ "20250101_120000" ++ ".json")
        (jdump (planRecordJson "20250101_120000" (.jstr "house") "A")) =
      some ⟨"plan_" ++ "20250101_120000" ++ ".json", .jstr "20250101_120000", "plan"⟩)) :=
  ⟨⟨by decide, wfJ_jstr "house"⟩,
   c5_round_trip "20250101_120000" "x.png" "A" ⟨10, 10, 1⟩ (.jstr "house") []
     (by decide) (wfJ_jstr "house")⟩

/-! ## C3: the history listing -/

/-- Counting the kept elements of a `filterMap`. -/
theorem length_filterMap_countP {α β : Type} (f : α → Option β) (l : List α) :
    (l.filterMap f).length = l.countP (fun a => (f a).isSome) := by
  induction l with
  | nil => rfl
  | cons a l ih =>
    cases hf : f a <;>
      simp [List.filterMap_cons, hf, List.countP_cons, ih]

/-- **C3.** If every file in the output directory is either skipped by
the history scan (not `.json`, unparseable, or non-object) or parses to
an entry with a string timestamp, then `/history` succeeds and returns
exactly the parsed entries — as many as there are parseable record
files — sorted descending by timestamp, each tagged `analysis` exactly
when the parsed object has an `analysis` field and `plan` otherwise,
and carrying the parsed object's `timestamp` value. -/
theorem c3_history (outs : List (String × String))
    (h : ∀ p ∈ outs, historyEntry p.1 p.2 = none ∨
      ∃ e, historyEntry p.1 p.2 = some e ∧ e.timestampJ.isStr = true) :
    ∃ l, get_history outs = .ok l ∧
      l.Perm (outs.filterMap (fun p => historyEntry p.1 p.2)) ∧
      l.length = outs.countP (fun p => (historyEntry p.1 p.2).isSome) ∧
      l.Sorted (fun a b => tsOf b ≤ tsOf a) ∧
      (∀ name content fields, (name, content) ∈ outs →
        pyEndsWith name ".json" = true → jload content = some (.jobj fields) →
        ∃ e, historyEntry name content = some e ∧ e ∈ l ∧
          e.type = (if (lookupF fields "analysis").isSome then "analysis" else "plan") ∧
          e.timestampJ = (lookupF fields "timestamp").getD (.jstr "")) := by
  haveI : IsTotal HistEntry (fun a b => tsOf b ≤ tsOf a) :=
    ⟨fun a b => le_total (tsOf b) (tsOf a)⟩
  haveI : IsTrans HistEntry (fun a b => tsOf b ≤ tsOf a) :=
    ⟨fun a b c hab hbc => le_trans hbc hab⟩
  have hall : (outs.filterMap (fun p => historyEntry p.1 p.2)).all
      (fun e => e.timestampJ.isStr) = true := by
    rw [List.all_eq_true]
    intro e he
    obtain ⟨p, hp, hpe⟩ := List.mem_filterMap.mp he
    rcases h p hp with hnone | ⟨e', he', hstr⟩
    · rw [hnone] at hpe
      exact absurd hpe (by simp)
    · rw [he'] at hpe
      exact Option.some.inj hpe ▸ hstr
  refine ⟨List.insertionSort (fun a b => tsOf b ≤ tsOf a)
      (outs.filterMap (fun p => historyEntry p.1 p.2)), ?_, ?_, ?_, ?_, ?_⟩
  · simp only [get_history]
    rw [if_pos hall]
  · exact List.perm_insertionSort _ _
  · rw [(List.perm_insertionSort _ _).length_eq]
    exact length_filterMap_countP _ _
  · exact List.sorted_insertionSort _ _
  · intro name content fields hmem hend hld
    have he : historyEntry name content =
        some ⟨name, (lookupF fields "timestamp").getD (.jstr ""),
          if (lookupF fields "analysis").isSome then "analysis" else "plan"⟩ := by
      rw [historyEntry, if_pos hend, hld]
    refine ⟨_, he, ?_, rfl, rfl⟩
    rw [(List.perm_insertionSort _ _).mem_iff]
    exact List.mem_filterMap.mpr ⟨(name, content), hmem, he⟩

/-- A concrete output directory: one plan record, one analysis record,
one non-JSON file and one corrupt JSON file. -/
def outs3 : List (String × String) :=
  [("b.json", "\x7b\"timestamp\": \"B\"\x7d"),
   ("a.json", "\x7b\"timestamp\": \"A\", \"analysis\": \"t\"\x7d"),
   ("skip.txt", "x"),
   ("bad.json", "\x7b")]

/-- Witness for C3 on the concrete directory `outs3`. -/
theorem c3_history_witness :
    (∀ p ∈ outs3, historyEntry p.1 p.2 = none ∨
      ∃ e, historyEntry p.1 p.2 = some e ∧ e.timestampJ.isStr = true) ∧
    (∃ l, get_history outs3 = .ok l ∧
      l.Perm (outs3.filterMap (fun p => historyEntry p.1 p.2)) ∧
      l.length = outs3.countP (fun p => (historyEntry p.1 p.2).isSome) ∧
      l.Sorted (fun a b => tsOf b ≤ tsOf a) ∧
      (∀ name content fields, (name, content) ∈ outs3 →
        pyEndsWith name ".json" = true → jload content = some (.jobj fields) →
        ∃ e, historyEntry name content = some e ∧ e ∈ l ∧
          e.type = (if (lookupF fields "analysis").isSome then "analysis" else "plan") ∧
          e.timestampJ = (lookupF fields "timestamp").getD (.jstr ""))) := by
  have h3 : ∀ p ∈ outs3, historyEntry p.1 p.2 = none ∨
      ∃ e, historyEntry p.1 p.2 = some e ∧ e.timestampJ.isStr = true := by
    intro p hp
    simp only [outs3, List.mem_cons, List.not_mem_nil, or_false] at hp
    rcases hp with rfl | rfl | rfl | rfl
    · exact Or.inr ⟨⟨"b.json", .jstr "B", "plan"⟩, rfl, rfl⟩
    · exact Or.inr ⟨⟨"a.json", .jstr "A", "analysis"⟩, rfl, rfl⟩
    · exact Or.inl rfl
    · exact Or.inl rfl
  exact ⟨h3, c3_history outs3 h3⟩

end FloorPlan
